import Mathlib

/-!
Shallow embedding of the ModeloMan control-plane core (Go) in Lean 4.

The definitions below are translated from the repository sources:
  * `internal/mm/workflow/workflow.go` (the `service` package: `HubService`
    methods `StartRun`, `FinishRun`, `RecordPromptAttempt`, `SetPolicy`,
    `UpsertPolicyCap`, `CreateTask`, ..., and the helpers `selectPolicyCap`,
    `resolveEffectiveLimits`, `logPolicyCapDryRunViolation`, `normalizeTags`).
  * `internal/transport/grpc/server.go` (the `grpcx` package:
    `TokenBucketRateLimiter.Allow` and `IdempotencyUnaryInterceptor`).
  * `internal/store/file_store.go` / `internal/store/store.go` (the store
    semantics consumed by the service layer: list/insert/update/replace
    operations over in-memory collections, and the idempotency record
    operations `ReserveIdempotencyKey` / `CompleteIdempotencyKey` /
    `ReleaseIdempotencyKey`).
  * `internal/domain` (entity record types and the `AppError` taxonomy).

Modelling conventions:
  * Go `string` is `String`; `strings.TrimSpace` is `String.trimSpace` and
    `strings.ToLower` is `String.toLower` (the claims only exercise ASCII).
  * Go `int64` is `Int` (no claim exercises 64-bit wrap-around) and Go
    `float64` is `ℚ` (the code performs only +, -, *, / and comparisons).
  * Nondeterministic inputs of the Go code (`newID`, `time.Now`) are taken
    as explicit parameters of the translated functions.
  * Go maps are total functions into `Option`; delete-during-iteration
    (bucket eviction) becomes a pointwise filter, and `map[k]=v` becomes a
    pointwise override.  JSON payloads produced by `json.Marshal` of a
    `map[string]any` are modelled as association lists whose keys appear in
    the sorted order `encoding/json` emits for map keys.
-/

namespace ModeloMan

/-- Error codes of `internal/domain/errors.go`. -/
inductive ErrorCode where
  | invalidArgument
  | notFound
  | conflict
  | unauthenticated
  | failedPrecondition
  | resourceExhausted
  | internalError
deriving DecidableEq, Repr

/-- `domain.AppError` (the `Cause` chain is not needed by any claim). -/
structure AppError where
  Code : ErrorCode
  Message : String
deriving DecidableEq, Repr

deriving instance DecidableEq for Except

/-- `domain.OrchestrationPolicy`. -/
structure OrchestrationPolicy where
  KillSwitch : Bool
  KillSwitchReason : String
  MaxCostPerRunUSD : ℚ
  MaxAttemptsPerRun : Int
  MaxTokensPerRun : Int
  MaxLatencyPerAttemptMS : Int
  UpdatedAt : String
deriving DecidableEq, Repr

/-- `domain.DefaultPolicy()`. -/
def DefaultPolicy : OrchestrationPolicy :=
  { KillSwitch := false
    KillSwitchReason := ""
    MaxCostPerRunUSD := 0
    MaxAttemptsPerRun := 0
    MaxTokensPerRun := 0
    MaxLatencyPerAttemptMS := 0
    UpdatedAt := "" }

/-- `domain.PolicyCap`. -/
structure PolicyCap where
  ID : String
  Name : String
  ProviderType : String
  Provider : String
  Model : String
  MaxCostPerRunUSD : ℚ
  MaxAttemptsPerRun : Int
  MaxTokensPerRun : Int
  MaxCostPerAttemptUSD : ℚ
  MaxTokensPerAttempt : Int
  MaxLatencyPerAttemptMS : Int
  Priority : Int
  DryRun : Bool
  IsActive : Bool
  UpdatedAt : String
deriving DecidableEq, Repr

/-- The zero value of `domain.PolicyCap` (Go's `var selected domain.PolicyCap`). -/
def PolicyCap.zero : PolicyCap :=
  { ID := "", Name := "", ProviderType := "", Provider := "", Model := ""
    MaxCostPerRunUSD := 0, MaxAttemptsPerRun := 0, MaxTokensPerRun := 0
    MaxCostPerAttemptUSD := 0, MaxTokensPerAttempt := 0
    MaxLatencyPerAttemptMS := 0, Priority := 0, DryRun := false
    IsActive := false, UpdatedAt := "" }

/-- `domain.AgentRun`. -/
structure AgentRun where
  ID : String
  TaskID : String
  Workflow : String
  AgentID : String
  PromptVersion : String
  ModelPolicy : String
  Status : String
  MaxRetries : Int
  TotalAttempts : Int
  SuccessAttempts : Int
  FailedAttempts : Int
  TotalTokensIn : Int
  TotalTokensOut : Int
  TotalCostUSD : ℚ
  DurationMS : Int
  LastError : String
  StartedAt : String
  FinishedAt : String
deriving DecidableEq, Repr

/-- `domain.PromptAttempt`. -/
structure PromptAttempt where
  ID : String
  RunID : String
  AttemptNumber : Int
  Workflow : String
  AgentID : String
  ProviderType : String
  Provider : String
  Model : String
  PromptVersion : String
  PromptHash : String
  Outcome : String
  ErrorType : String
  ErrorMessage : String
  TokensIn : Int
  TokensOut : Int
  CostUSD : ℚ
  LatencyMS : Int
  QualityScore : ℚ
  CreatedAt : String
deriving DecidableEq, Repr

/-- A JSON scalar, used for the marshalled dry-run violation payload. -/
inductive JVal where
  | str (s : String)
  | int (n : Int)
  | bool (b : Bool)
deriving DecidableEq, Repr

/-- A `data_json` payload of a `domain.RunEvent`.  `raw` carries a payload
string passed through verbatim (as `RecordRunEvent` does); `obj` is the
`json.Marshal` image of a `map[string]any`, keys in the sorted order
`encoding/json` emits them. -/
inductive DataPayload where
  | raw (s : String)
  | obj (fields : List (String × JVal))
deriving DecidableEq, Repr

/-- `domain.RunEvent`. -/
structure RunEvent where
  ID : String
  RunID : String
  EventType : String
  Level : String
  Message : String
  DataJSON : DataPayload
  CreatedAt : String
deriving DecidableEq, Repr

/-- `domain.Task`. -/
structure Task where
  ID : String
  Title : String
  Details : String
  Status : String
  Tags : List String
  CreatedAt : String
  UpdatedAt : String
deriving DecidableEq, Repr

/-- The slice of `domain.State` that the verified operations touch. -/
structure State where
  tasks : List Task
  runs : List AgentRun
  attempts : List PromptAttempt
  runEvents : List RunEvent
  policy : OrchestrationPolicy
  policyCaps : List PolicyCap
deriving DecidableEq, Repr

/-- `domain.EmptyState()` restricted to the modelled fields. -/
def initialState : State :=
  { tasks := [], runs := [], attempts := [], runEvents := []
    policy := DefaultPolicy, policyCaps := [] }

/-- `validRunStatuses` of the service package. -/
def validRunStatuses : List String := ["running", "completed", "failed", "cancelled"]

/-- `validAttemptOutcomes` of the service package. -/
def validAttemptOutcomes : List String :=
  ["success", "failed", "timeout", "retryable_error", "tool_error"]

/-- `validEventLevels` of the service package. -/
def validEventLevels : List String := ["info", "warn", "error"]

/-- `validProviderTypes` of the service package. -/
def validProviderTypes : List String := ["api", "subscription", "opensource"]

/-- `validTaskStatuses` of the service package. -/
def validTaskStatuses : List String := ["todo", "in_progress", "done", "blocked"]

end ModeloMan

/-! ## `strings.TrimSpace`

Go's `strings.TrimSpace` removes leading and trailing white space.  The
claims only exercise the Latin-1 space set (tab, newline, vertical tab,
form feed, carriage return, space, next-line, no-break space), which is
modelled here. -/

/-- The Latin-1 white-space test of Go's `unicode.IsSpace`. -/
def isSpaceChar (c : Char) : Bool :=
  c = ' ' || c = '\t' || c = '\n' || c = Char.ofNat 0x0B || c = Char.ofNat 0x0C ||
  c = '\r' || c = Char.ofNat 0x85 || c = Char.ofNat 0xA0

/-- `strings.TrimSpace` on the underlying character list. -/
def trimSpaceList (l : List Char) : List Char :=
  ((l.dropWhile isSpaceChar).reverse.dropWhile isSpaceChar).reverse

/-- `strings.TrimSpace(s)`. -/
def String.trimSpace (s : String) : String := String.mk (trimSpaceList s.data)

theorem head?_dropWhile_not (p : Char → Bool) :
    ∀ (l : List Char) (a : Char), (l.dropWhile p).head? = some a → p a = false := by
  intro l
  induction l with
  | nil => intro a h; cases h
  | cons x rest ih =>
    intro a h
    by_cases hx : p x
    · rw [List.dropWhile_cons_of_pos hx] at h
      exact ih a h
    · rw [List.dropWhile_cons_of_neg hx] at h
      injection h with h
      subst h
      exact eq_false_of_ne_true hx

theorem dropWhile_eq_self_of_head (p : Char → Bool) (l : List Char)
    (h : ∀ a, l.head? = some a → p a = false) : l.dropWhile p = l := by
  cases l with
  | nil => rfl
  | cons x rest =>
    have := h x rfl
    rw [List.dropWhile_cons_of_neg (by simp [this])]

theorem dropWhile_suffix_exists (p : Char → Bool) :
    ∀ l : List Char, ∃ t, l = t ++ l.dropWhile p := by
  intro l
  induction l with
  | nil => exact ⟨[], rfl⟩
  | cons x rest ih =>
    by_cases hx : p x
    · obtain ⟨t, ht⟩ := ih
      exact ⟨x :: t, by rw [List.dropWhile_cons_of_pos hx]; simpa using ht⟩
    · exact ⟨[], by simp [List.dropWhile_cons_of_neg hx]⟩

theorem getLast?_dropWhile (p : Char → Bool) (l : List Char)
    (hne : l.dropWhile p ≠ []) : (l.dropWhile p).getLast? = l.getLast? := by
  obtain ⟨t, ht⟩ := dropWhile_suffix_exists p l
  conv_rhs => rw [ht]
  exact (List.getLast?_append_of_ne_nil t hne).symm

/-- `trimSpaceList` is idempotent: a trimmed list has no leading or
trailing white space left. -/
theorem trimSpaceList_idem (l : List Char) :
    trimSpaceList (trimSpaceList l) = trimSpaceList l := by
  unfold trimSpaceList
  set A := l.dropWhile isSpaceChar with hA
  set R := A.reverse.dropWhile isSpaceChar with hR
  have hdropR : R.dropWhile isSpaceChar = R := by
    apply dropWhile_eq_self_of_head
    intro a ha
    exact head?_dropWhile_not isSpaceChar A.reverse a (hR ▸ ha)
  have hheadRev : ∀ a, R.reverse.head? = some a → isSpaceChar a = false := by
    intro a ha
    rw [List.head?_reverse] at ha
    rcases List.eq_nil_or_concat R with hnil | ⟨_, _, _⟩
    · rw [hnil] at ha; cases ha
    · have hne : R ≠ [] := by
        intro h
        rw [h] at ha; cases ha
      have hlast : R.getLast? = A.reverse.getLast? :=
        getLast?_dropWhile isSpaceChar A.reverse (hR ▸ hne)
      rw [hlast, List.getLast?_reverse] at ha
      exact head?_dropWhile_not isSpaceChar l a (hA ▸ ha)
  rw [dropWhile_eq_self_of_head isSpaceChar R.reverse hheadRev,
    List.reverse_reverse, hdropR]

/-- `String.trimSpace` is idempotent. -/
theorem String.trimSpace_idem (s : String) : s.trimSpace.trimSpace = s.trimSpace := by
  unfold String.trimSpace
  exact congrArg String.mk (trimSpaceList_idem s.data)

namespace ModeloMan

/-! ## `selectPolicyCap` (workflow.go, `service` package)

The Go loop keeps `selected`, `found`, `bestSpecificity`, `bestPriority`
and replaces the current selection only on a strict lexicographic
improvement of `(specificity, priority)`. -/

/-- The selector-compatibility / activity filter of the loop body: a cap is
skipped unless it `IsActive` and each non-empty selector equals the
corresponding request field. -/
def capMatches (cap : PolicyCap) (providerType provider model : String) : Bool :=
  cap.IsActive &&
  (cap.ProviderType == "" || cap.ProviderType == providerType) &&
  (cap.Provider == "" || cap.Provider == provider) &&
  (cap.Model == "" || cap.Model == model)

/-- The specificity count: number of non-empty selectors of the cap. -/
def specificity (cap : PolicyCap) : Int :=
  (if cap.ProviderType == "" then 0 else 1) +
  (if cap.Provider == "" then 0 else 1) +
  (if cap.Model == "" then 0 else 1)

/-- The loop of `selectPolicyCap`, carrying the running selection exactly as
the Go code does. -/
def selectPolicyCapLoop (providerType provider model : String) :
    List PolicyCap → Option PolicyCap → Int → Int → Option PolicyCap
  | [], selected, _, _ => selected
  | cap :: rest, selected, bestSpecificity, bestPriority =>
    if capMatches cap providerType provider model then
      let s := specificity cap
      if selected.isNone || s > bestSpecificity ||
          (s == bestSpecificity && cap.Priority > bestPriority) then
        selectPolicyCapLoop providerType provider model rest (some cap) s cap.Priority
      else
        selectPolicyCapLoop providerType provider model rest selected bestSpecificity bestPriority
    else
      selectPolicyCapLoop providerType provider model rest selected bestSpecificity bestPriority

/-- `selectPolicyCap(caps, providerType, provider, model)`.  `none` plays the
role of `found = false`. -/
def selectPolicyCap (caps : List PolicyCap) (providerType provider model : String) :
    Option PolicyCap :=
  selectPolicyCapLoop providerType provider model caps none (-1) (-(2 ^ 62))

/-- Strict lexicographic order on `(specificity, Priority)`: the order in
which the loop improves its selection. -/
def capKeyLt (a b : PolicyCap) : Prop :=
  specificity a < specificity b ∨
    (specificity a = specificity b ∧ a.Priority < b.Priority)

/-- Reflexive lexicographic order on `(specificity, Priority)`. -/
def capKeyLe (a b : PolicyCap) : Prop :=
  specificity a < specificity b ∨
    (specificity a = specificity b ∧ a.Priority ≤ b.Priority)

instance (a b : PolicyCap) : Decidable (capKeyLt a b) := by
  unfold capKeyLt; infer_instance

instance (a b : PolicyCap) : Decidable (capKeyLe a b) := by
  unfold capKeyLe; infer_instance

theorem capKeyLt_trans {a b c : PolicyCap} (h1 : capKeyLt a b) (h2 : capKeyLt b c) :
    capKeyLt a c := by
  rcases h1 with h1 | ⟨e1, p1⟩ <;> rcases h2 with h2 | ⟨e2, p2⟩
  · exact Or.inl (h1.trans h2)
  · exact Or.inl (e2 ▸ h1)
  · exact Or.inl (e1 ▸ h2)
  · exact Or.inr ⟨e1.trans e2, p1.trans p2⟩

theorem capKeyLe_of_not_lt {a b : PolicyCap} (h : ¬ capKeyLt a b) : capKeyLe b a := by
  unfold capKeyLt at h
  unfold capKeyLe
  push_neg at h
  obtain ⟨h1, h2⟩ := h
  rcases lt_trichotomy (specificity b) (specificity a) with hs | hs | hs
  · exact Or.inl hs
  · exact Or.inr ⟨hs, h2 hs.symm⟩
  · omega

theorem capKeyLe_lt_trans {a b c : PolicyCap} (h1 : capKeyLe a b) (h2 : capKeyLt b c) :
    capKeyLt a c := by
  rcases h1 with h1 | ⟨e1, p1⟩ <;> rcases h2 with h2 | ⟨e2, p2⟩
  · exact Or.inl (h1.trans h2)
  · exact Or.inl (e2 ▸ h1)
  · exact Or.inl (e1 ▸ h2)
  · exact Or.inr ⟨e1.trans e2, lt_of_le_of_lt p1 p2⟩

/-- `c` is the selection the loop produces from a processed list `pre`:
`c` matches, every match of `pre` is `capKeyLe` below it, and `c` is the
*first* element of `pre` attaining that maximum. -/
def FirstMax (pre : List PolicyCap) (pt p m : String) (c : PolicyCap) : Prop :=
  capMatches c pt p m = true ∧
  (∀ c' ∈ pre, capMatches c' pt p m = true → capKeyLe c' c) ∧
  ∃ l1 l2, pre = l1 ++ c :: l2 ∧
    ∀ c' ∈ l1, capMatches c' pt p m = true → capKeyLt c' c

theorem firstMax_extend_keep {pre : List PolicyCap} {pt p m : String} {c x : PolicyCap}
    (h : FirstMax pre pt p m c)
    (hx : capMatches x pt p m = true → capKeyLe x c) :
    FirstMax (pre ++ [x]) pt p m c := by
  obtain ⟨hc, hmax, l1, l2, rfl, hfirst⟩ := h
  refine ⟨hc, ?_, l1, l2 ++ [x], by simp, hfirst⟩
  intro c' hc' hm
  rcases List.mem_append.mp hc' with h' | h'
  · exact hmax c' h' hm
  · simp only [List.mem_singleton] at h'
    subst h'
    exact hx hm

theorem firstMax_extend_new {pre : List PolicyCap} {pt p m : String} {x : PolicyCap}
    (hx : capMatches x pt p m = true)
    (hbeats : ∀ c' ∈ pre, capMatches c' pt p m = true → capKeyLt c' x) :
    FirstMax (pre ++ [x]) pt p m x := by
  refine ⟨hx, ?_, pre, [], rfl, hbeats⟩
  intro c' hc' hm
  rcases List.mem_append.mp hc' with h' | h'
  · rcases hbeats c' h' hm with h | ⟨e, pl⟩
    · exact Or.inl h
    · exact Or.inr ⟨e, pl.le⟩
  · simp only [List.mem_singleton] at h'
    subst h'
    exact Or.inr ⟨rfl, le_rfl⟩

/-- Loop invariant proof for `selectPolicyCapLoop`: starting from a state
that is correct for the processed part `pre`, the loop result is correct for
`pre ++ caps`. -/
theorem selectPolicyCapLoop_spec (pt p m : String) :
    ∀ (caps pre : List PolicyCap) (selected : Option PolicyCap) (bS bP : Int),
      (selected = none → ∀ c' ∈ pre, capMatches c' pt p m = false) →
      (∀ c₀, selected = some c₀ →
        bS = specificity c₀ ∧ bP = c₀.Priority ∧ FirstMax pre pt p m c₀) →
      (match selectPolicyCapLoop pt p m caps selected bS bP with
        | none => ∀ c' ∈ pre ++ caps, capMatches c' pt p m = false
        | some c => FirstMax (pre ++ caps) pt p m c) := by
  intro caps
  induction caps with
  | nil =>
    intro pre selected bS bP hnone hsome
    cases selected with
    | none => simpa [selectPolicyCapLoop] using hnone rfl
    | some c₀ => simpa [selectPolicyCapLoop] using (hsome c₀ rfl).2.2
  | cons cap rest ih =>
    intro pre selected bS bP hnone hsome
    by_cases hmatch : capMatches cap pt p m = true
    · rw [selectPolicyCapLoop, if_pos hmatch]
      by_cases hrepl : (selected.isNone || specificity cap > bS ||
          (specificity cap == bS && cap.Priority > bP)) = true
      · rw [if_pos hrepl]
        have hgoal := ih (pre ++ [cap]) (some cap) (specificity cap) cap.Priority
          (by intro h; cases h)
          (by
            intro c₀ hc₀
            injection hc₀ with hc₀
            subst hc₀
            refine ⟨rfl, rfl, ?_⟩
            cases selected with
            | none =>
              exact firstMax_extend_new hmatch
                (fun c' hc' hm => absurd (hnone rfl c' hc') (by simp [hm]))
            | some c₀ =>
              obtain ⟨hbS, hbP, hfm⟩ := hsome c₀ rfl
              simp only [Option.isNone_some, Bool.false_or, Bool.or_eq_true,
                decide_eq_true_eq, Bool.and_eq_true, beq_iff_eq] at hrepl
              have hlt : capKeyLt c₀ cap := by
                rcases hrepl with h | ⟨he, hp⟩
                · exact Or.inl (by omega)
                · exact Or.inr ⟨by omega, by omega⟩
              obtain ⟨hc, hmax, l1, l2, rfl, hfirst⟩ := hfm
              refine firstMax_extend_new hmatch ?_
              intro c' hc' hm
              exact capKeyLe_lt_trans (hmax c' hc' hm) hlt)
        simpa [List.append_assoc] using hgoal
      · rw [if_neg hrepl]
        cases selected with
        | none => simp at hrepl
        | some c₀ =>
          obtain ⟨hbS, hbP, hfm⟩ := hsome c₀ rfl
          simp only [Option.isNone_some, Bool.false_or, Bool.or_eq_true,
            decide_eq_true_eq, Bool.and_eq_true, beq_iff_eq, not_or, not_and,
            not_lt] at hrepl
          have hle : capKeyLe cap c₀ := by
            subst hbS hbP
            apply capKeyLe_of_not_lt
            intro hlt
            rcases hlt with h | ⟨he, hp⟩
            · omega
            · exact absurd hp (by omega)
          have hgoal := ih (pre ++ [cap]) (some c₀) bS bP
            (by intro h; cases h)
            (by
              intro c₁ hc₁
              injection hc₁ with hc₁
              subst hc₁
              exact ⟨hbS, hbP, firstMax_extend_keep hfm (fun _ => hle)⟩)
          simpa [List.append_assoc] using hgoal
    · rw [selectPolicyCapLoop, if_neg hmatch]
      have hgoal := ih (pre ++ [cap]) selected bS bP
        (by
          intro h c' hc'
          rcases List.mem_append.mp hc' with h' | h'
          · exact hnone h c' h'
          · simp only [List.mem_singleton] at h'
            subst h'
            exact eq_false_of_ne_true hmatch)
        (by
          intro c₀ hc₀
          obtain ⟨hbS, hbP, hfm⟩ := hsome c₀ hc₀
          exact ⟨hbS, hbP, firstMax_extend_keep hfm
            (fun hm => absurd hm (by simp [hmatch]))⟩)
      simpa [List.append_assoc] using hgoal

/-- **C1** (amended).  `selectPolicyCap` is a pure function of its inputs.
When it returns a cap, that cap is active and selector-compatible, it
maximises `(specificity, priority)` lexicographically over all matching
caps, and among matching caps attaining the maximum it is the EARLIEST one
in input-list order (there is no id tie-break); when it returns nothing, no
cap in the list matches.  Permutations of the cap list that keep the
relative order of fully tied matching caps therefore yield the same
selection, but permutations that swap fully tied caps may not. -/
theorem selectPolicyCap_first_max (caps : List PolicyCap) (pt p m : String) :
    (selectPolicyCap caps pt p m = none →
      ∀ c' ∈ caps, capMatches c' pt p m = false) ∧
    (∀ c, selectPolicyCap caps pt p m = some c →
      capMatches c pt p m = true ∧ c.IsActive = true ∧
      (∀ c' ∈ caps, capMatches c' pt p m = true → capKeyLe c' c) ∧
      ∃ l1 l2, caps = l1 ++ c :: l2 ∧
        ∀ c' ∈ l1, capMatches c' pt p m = true → capKeyLt c' c) := by
  have hspec := selectPolicyCapLoop_spec pt p m caps [] none (-1) (-(2 ^ 62))
    (by intro _ c' hc'; cases hc') (by intro c₀ h; cases h)
  rw [show ([] : List PolicyCap) ++ caps = caps from rfl] at hspec
  unfold selectPolicyCap
  constructor
  · intro hnone
    rw [hnone] at hspec
    exact hspec
  · intro c hc
    rw [hc] at hspec
    obtain ⟨hm, hmax, hfirst⟩ := hspec
    refine ⟨hm, ?_, hmax, hfirst⟩
    have := hm
    unfold capMatches at this
    simp only [Bool.and_eq_true] at this
    exact this.1.1.1

/-- Witness for `selectPolicyCap_first_max` at a concrete input. -/
theorem selectPolicyCap_first_max_witness :
    ∃ c, selectPolicyCap
        [{ PolicyCap.zero with ID := "b", IsActive := true },
         { PolicyCap.zero with ID := "a", IsActive := true }] "api" "" "" = some c ∧
      capMatches c "api" "" "" = true ∧ c.IsActive = true := by
  have h := (selectPolicyCap_first_max
    [{ PolicyCap.zero with ID := "b", IsActive := true },
     { PolicyCap.zero with ID := "a", IsActive := true }] "api" "" "").2
    { PolicyCap.zero with ID := "b", IsActive := true } (by decide)
  exact ⟨{ PolicyCap.zero with ID := "b", IsActive := true }, by decide, h.1, h.2.1⟩

/-- **C1, counterexample.**  Two active caps that tie on specificity and
priority but differ in id: the selection depends on the order of the cap
list (the first cap wins, not the one with the lexicographically lowest
id), so `selectPolicyCap` is NOT permutation-invariant and does NOT break
ties by lowest id. -/
theorem selectPolicyCap_order_dependent :
    selectPolicyCap
        [{ PolicyCap.zero with ID := "b", IsActive := true },
         { PolicyCap.zero with ID := "a", IsActive := true }] "api" "" "" =
      some { PolicyCap.zero with ID := "b", IsActive := true } ∧
    selectPolicyCap
        [{ PolicyCap.zero with ID := "a", IsActive := true },
         { PolicyCap.zero with ID := "b", IsActive := true }] "api" "" "" =
      some { PolicyCap.zero with ID := "a", IsActive := true } ∧
    ({ PolicyCap.zero with ID := "b", IsActive := true } : PolicyCap) ≠
      { PolicyCap.zero with ID := "a", IsActive := true } := by
  refine ⟨?_, ?_, ?_⟩ <;> decide

/-! ## Store write primitives (file_store.go)

`UpdateRun` / `UpsertTask` / `UpsertPolicyCap` replace the first element with
the same `ID` and append when none exists; inserts append. -/

/-- `FileStore.UpdateRun`. -/
def updateRunStore (runs : List AgentRun) (run : AgentRun) : List AgentRun :=
  match runs with
  | [] => [run]
  | r :: rest => if r.ID == run.ID then run :: rest else r :: updateRunStore rest run

/-- `FileStore.UpsertTask`. -/
def upsertTaskStore (tasks : List Task) (task : Task) : List Task :=
  match tasks with
  | [] => [task]
  | t :: rest => if t.ID == task.ID then task :: rest else t :: upsertTaskStore rest task

/-- `FileStore.UpsertPolicyCap`. -/
def upsertCapStore (caps : List PolicyCap) (cap : PolicyCap) : List PolicyCap :=
  match caps with
  | [] => [cap]
  | c :: rest => if c.ID == cap.ID then cap :: rest else c :: upsertCapStore rest cap

/-- `FileStore.DeletePolicyCap` (removes the first cap with the id; the
returned flag mirrors `deleted`). -/
def deleteCapStore (caps : List PolicyCap) (id : String) : List PolicyCap × Bool :=
  match caps with
  | [] => ([], false)
  | c :: rest =>
    if c.ID == id then (rest, true)
    else
      let (rest', deleted) := deleteCapStore rest id
      (c :: rest', deleted)

/-- `FileStore.DeleteTask`. -/
def deleteTaskStore (tasks : List Task) (id : String) : List Task × Bool :=
  match tasks with
  | [] => ([], false)
  | t :: rest =>
    if t.ID == id then (rest, true)
    else
      let (rest', deleted) := deleteTaskStore rest id
      (t :: rest', deleted)

/-! ## Request records of the service package -/

/-- `service.SetPolicyRequest` (pointer fields are `Option`s). -/
structure SetPolicyRequest where
  KillSwitch : Option Bool := none
  KillSwitchReason : Option String := none
  MaxCostPerRunUSD : Option ℚ := none
  MaxAttemptsPerRun : Option Int := none
  MaxTokensPerRun : Option Int := none
  MaxLatencyPerAttemptMS : Option Int := none
deriving DecidableEq, Repr

/-- `service.UpsertPolicyCapRequest`. -/
structure UpsertPolicyCapRequest where
  ID : String := ""
  Name : String := ""
  ProviderType : String := ""
  Provider : String := ""
  Model : String := ""
  MaxCostPerRunUSD : Option ℚ := none
  MaxAttemptsPerRun : Option Int := none
  MaxTokensPerRun : Option Int := none
  MaxCostPerAttemptUSD : Option ℚ := none
  MaxTokensPerAttempt : Option Int := none
  MaxLatencyPerAttemptMS : Option Int := none
  Priority : Option Int := none
  DryRun : Option Bool := none
  IsActive : Option Bool := none
deriving DecidableEq, Repr

/-- `service.StartRunRequest`. -/
structure StartRunRequest where
  TaskID : String := ""
  Workflow : String := ""
  AgentID : String := ""
  PromptVersion : String := ""
  ModelPolicy : String := ""
  MaxRetries : Int := 0
deriving DecidableEq, Repr

/-- `service.FinishRunRequest`. -/
structure FinishRunRequest where
  RunID : String := ""
  Status : String := ""
  LastError : String := ""
deriving DecidableEq, Repr

/-- `service.RecordPromptAttemptRequest`. -/
structure RecordPromptAttemptRequest where
  RunID : String := ""
  AttemptNumber : Int := 0
  Workflow : String := ""
  AgentID : String := ""
  ProviderType : String := ""
  Provider : String := ""
  Model : String := ""
  PromptVersion : String := ""
  PromptHash : String := ""
  Outcome : String := ""
  ErrorType : String := ""
  ErrorMessage : String := ""
  TokensIn : Int := 0
  TokensOut : Int := 0
  CostUSD : ℚ := 0
  LatencyMS : Int := 0
  QualityScore : ℚ := 0
deriving DecidableEq, Repr

/-- `service.RecordRunEventRequest` (`DataJSON` is the opaque payload). -/
structure RecordRunEventRequest where
  RunID : String := ""
  EventType : String := ""
  Level : String := ""
  Message : String := ""
  DataJSON : String := ""
deriving DecidableEq, Repr

/-- `service.CreateTaskRequest`. -/
structure CreateTaskRequest where
  Title : String := ""
  Details : String := ""
  Status : String := ""
  Tags : Option (List String) := none
deriving DecidableEq, Repr

/-- `service.UpdateTaskRequest`.  Go distinguishes a `nil` tag slice from an
empty one (`request.Tags != nil`); `Option` keeps that distinction. -/
structure UpdateTaskRequest where
  ID : String := ""
  Title : String := ""
  Details : String := ""
  Status : String := ""
  Tags : Option (List String) := none
deriving DecidableEq, Repr

/-! ## `normalizeTags` (workflow.go) -/

/-- `strings.ToLower` (the claims only exercise ASCII, where Go lowercases
the range `A`-`Z`). -/
def strToLower (s : String) : String := String.mk (s.data.map Char.toLower)

/-- The per-tag normalisation `strings.ToLower(strings.TrimSpace(tag))`. -/
def cleanTag (tag : String) : String := strToLower tag.trimSpace

/-- The loop of `normalizeTags`: the output list doubles as the `seen` set
(in the Go code `seen` and `out` always hold the same elements). -/
def normalizeTagsAux : List String → List String → List String
  | [], out => out
  | tag :: rest, out =>
    let clean := cleanTag tag
    if clean = "" ∨ clean ∈ out then normalizeTagsAux rest out
    else normalizeTagsAux rest (out ++ [clean])

/-- `normalizeTags(tags)` (a `nil` slice also yields `[]`). -/
def normalizeTags (tags : List String) : List String := normalizeTagsAux tags []

/-! ## Policy admin (workflow.go) -/

/-- An optional numeric field that is present and negative (the validation
pattern `if request.X != nil && *request.X < 0` of the Go code). -/
def negInt (o : Option Int) : Bool :=
  match o with
  | some v => decide (v < 0)
  | none => false

/-- `negInt` for the `float64` fields. -/
def negRat (o : Option ℚ) : Bool :=
  match o with
  | some v => decide (v < 0)
  | none => false

/-- The field overlay of `SetPolicy`: each present request field replaces
the stored one (`if request.X != nil { policy.X = *request.X }`), the
reason is trimmed, and `UpdatedAt` is stamped.  The sequential Go
assignments touch pairwise distinct fields, so they are written as one
record. -/
def applyPolicyOverlays (request : SetPolicyRequest)
    (policy : OrchestrationPolicy) (now : String) : OrchestrationPolicy :=
  { KillSwitch := request.KillSwitch.getD policy.KillSwitch
    KillSwitchReason := match request.KillSwitchReason with
      | some v => v.trimSpace
      | none => policy.KillSwitchReason
    MaxCostPerRunUSD := request.MaxCostPerRunUSD.getD policy.MaxCostPerRunUSD
    MaxAttemptsPerRun := request.MaxAttemptsPerRun.getD policy.MaxAttemptsPerRun
    MaxTokensPerRun := request.MaxTokensPerRun.getD policy.MaxTokensPerRun
    MaxLatencyPerAttemptMS :=
      request.MaxLatencyPerAttemptMS.getD policy.MaxLatencyPerAttemptMS
    UpdatedAt := now }

/-- `HubService.SetPolicy`.  Validates each present numeric field
non-negative (first offending field wins, as in the sequential Go checks),
then overlays and stores. -/
def setPolicy (s : State) (request : SetPolicyRequest) (now : String) :
    State × Except AppError OrchestrationPolicy :=
  if negRat request.MaxCostPerRunUSD then
    (s, .error ⟨.invalidArgument, "max_cost_per_run_usd must be non-negative"⟩)
  else if negInt request.MaxAttemptsPerRun then
    (s, .error ⟨.invalidArgument, "max_attempts_per_run must be non-negative"⟩)
  else if negInt request.MaxTokensPerRun then
    (s, .error ⟨.invalidArgument, "max_tokens_per_run must be non-negative"⟩)
  else if negInt request.MaxLatencyPerAttemptMS then
    (s, .error ⟨.invalidArgument, "max_latency_per_attempt_ms must be non-negative"⟩)
  else
    let policy := applyPolicyOverlays request s.policy now
    ({ s with policy := policy }, .ok policy)

/-- The field overlay of `UpsertPolicyCap`: non-empty request strings
replace the stored (trimmed) value — note the guards test the UNTRIMMED
request field — and present numeric/boolean pointers replace the stored
value; `UpdatedAt` is stamped. -/
def applyCapOverlays (request : UpsertPolicyCapRequest) (current : PolicyCap)
    (now : String) : PolicyCap :=
  { ID := current.ID
    Name := if request.Name ≠ "" then request.Name.trimSpace else current.Name
    ProviderType := if request.ProviderType ≠ "" then request.ProviderType.trimSpace
      else current.ProviderType
    Provider := if request.Provider ≠ "" then request.Provider.trimSpace
      else current.Provider
    Model := if request.Model ≠ "" then request.Model.trimSpace else current.Model
    MaxCostPerRunUSD := request.MaxCostPerRunUSD.getD current.MaxCostPerRunUSD
    MaxAttemptsPerRun := request.MaxAttemptsPerRun.getD current.MaxAttemptsPerRun
    MaxTokensPerRun := request.MaxTokensPerRun.getD current.MaxTokensPerRun
    MaxCostPerAttemptUSD :=
      request.MaxCostPerAttemptUSD.getD current.MaxCostPerAttemptUSD
    MaxTokensPerAttempt :=
      request.MaxTokensPerAttempt.getD current.MaxTokensPerAttempt
    MaxLatencyPerAttemptMS :=
      request.MaxLatencyPerAttemptMS.getD current.MaxLatencyPerAttemptMS
    Priority := request.Priority.getD current.Priority
    DryRun := request.DryRun.getD current.DryRun
    IsActive := request.IsActive.getD current.IsActive
    UpdatedAt := now }

/-- `HubService.UpsertPolicyCap`.  `genID` stands in for `newID("cap")` when
the request id is blank.  The numeric validations abort with the first
offending field, exactly as the sequential Go checks do; validation reads
only the request, so hoisting the checks above the overlays preserves the
returned pair. -/
def upsertPolicyCap (s : State) (request : UpsertPolicyCapRequest)
    (genID now : String) : State × Except AppError PolicyCap :=
  let id := if request.ID.trimSpace = "" then genID else request.ID.trimSpace
  let providerType := request.ProviderType.trimSpace
  if providerType ≠ "" ∧ providerType ∉ validProviderTypes then
    (s, .error ⟨.invalidArgument, "provider_type must be one of: api, subscription, opensource"⟩)
  else if negRat request.MaxCostPerRunUSD then
    (s, .error ⟨.invalidArgument, "max_cost_per_run_usd must be non-negative"⟩)
  else if negInt request.MaxAttemptsPerRun then
    (s, .error ⟨.invalidArgument, "max_attempts_per_run must be non-negative"⟩)
  else if negInt request.MaxTokensPerRun then
    (s, .error ⟨.invalidArgument, "max_tokens_per_run must be non-negative"⟩)
  else if negRat request.MaxCostPerAttemptUSD then
    (s, .error ⟨.invalidArgument, "max_cost_per_attempt_usd must be non-negative"⟩)
  else if negInt request.MaxTokensPerAttempt then
    (s, .error ⟨.invalidArgument, "max_tokens_per_attempt must be non-negative"⟩)
  else if negInt request.MaxLatencyPerAttemptMS then
    (s, .error ⟨.invalidArgument, "max_latency_per_attempt_ms must be non-negative"⟩)
  else
    -- fresh-cap template (the `current :=` literal of the Go code)
    let fresh : PolicyCap :=
      { PolicyCap.zero with
          ID := id, Name := request.Name.trimSpace, ProviderType := providerType
          Provider := request.Provider.trimSpace, Model := request.Model.trimSpace
          DryRun := false, IsActive := true, UpdatedAt := now }
    let current := match s.policyCaps.find? (fun item => item.ID == id) with
      | some item => item
      | none => fresh
    let current := applyCapOverlays request current now
    ({ s with policyCaps := upsertCapStore s.policyCaps current }, .ok current)

/-! ## Run lifecycle (workflow.go) -/

/-- `HubService.StartRun`.  `genID` stands in for `newID("run")`, `now` for
`timeNow()`. -/
def startRun (s : State) (request : StartRunRequest) (genID now : String) :
    State × Except AppError AgentRun :=
  let workflow := request.Workflow.trimSpace
  let agentID := request.AgentID.trimSpace
  if workflow = "" ∨ agentID = "" then
    (s, .error ⟨.invalidArgument, "workflow and agent_id are required"⟩)
  else if request.MaxRetries < 0 then
    (s, .error ⟨.invalidArgument, "max_retries must be non-negative"⟩)
  else if s.policy.KillSwitch then
    let reason := if s.policy.KillSwitchReason.trimSpace = "" then "kill switch is enabled"
      else s.policy.KillSwitchReason.trimSpace
    (s, .error ⟨.failedPrecondition, reason⟩)
  else
    let run : AgentRun :=
      { ID := genID, TaskID := request.TaskID.trimSpace, Workflow := workflow
        AgentID := agentID, PromptVersion := request.PromptVersion.trimSpace
        ModelPolicy := request.ModelPolicy.trimSpace, Status := "running"
        MaxRetries := request.MaxRetries, TotalAttempts := 0, SuccessAttempts := 0
        FailedAttempts := 0, TotalTokensIn := 0, TotalTokensOut := 0
        TotalCostUSD := 0, DurationMS := 0, LastError := "", StartedAt := now
        FinishedAt := "" }
    ({ s with runs := s.runs ++ [run] }, .ok run)

/-- The counter-accumulation loop of `FinishRun` (`run.TotalAttempts++` etc.
— note it accumulates on top of whatever the run already holds). -/
def finishRunFold (run : AgentRun) (attempts : List PromptAttempt) : AgentRun :=
  attempts.foldl
    (fun r a =>
      { r with
          TotalAttempts := r.TotalAttempts + 1
          TotalTokensIn := r.TotalTokensIn + a.TokensIn
          TotalTokensOut := r.TotalTokensOut + a.TokensOut
          TotalCostUSD := r.TotalCostUSD + a.CostUSD
          SuccessAttempts := if a.Outcome == "success" then r.SuccessAttempts + 1
            else r.SuccessAttempts
          FailedAttempts := if a.Outcome == "success" then r.FailedAttempts
            else r.FailedAttempts + 1 })
    run

/-- `HubService.FinishRun`.  `duration` stands in for the measured
`time.Since(startedAt).Milliseconds()`; `none` models an unparsable
`StartedAt` (the duration is then left unchanged). -/
def finishRun (s : State) (request : FinishRunRequest) (now : String)
    (duration : Option Int) : State × Except AppError AgentRun :=
  let runID := request.RunID.trimSpace
  if runID = "" then (s, .error ⟨.invalidArgument, "run_id is required"⟩)
  else
    let status := if request.Status.trimSpace = "" then "completed" else request.Status.trimSpace
    if status ∉ validRunStatuses ∨ status = "running" then
      (s, .error ⟨.invalidArgument, "status must be one of: completed, failed, cancelled"⟩)
    else
      match s.runs.find? (fun run => run.ID == runID) with
      | none => (s, .error ⟨.notFound, "run not found"⟩)
      | some run =>
        let run := { run with
          Status := status, FinishedAt := now, LastError := request.LastError.trimSpace }
        let run := match duration with
          | some d => { run with DurationMS := d }
          | none => run
        let attempts := s.attempts.filter (fun a => a.RunID == runID)
        let run := finishRunFold run attempts
        ({ s with runs := updateRunStore s.runs run }, .ok run)

/-! ## `RecordPromptAttempt` and its cap-check cascade (workflow.go) -/

/-- `service.effectiveLimits`. -/
structure effectiveLimits where
  MaxCostPerRunUSD : ℚ
  MaxAttemptsPerRun : Int
  MaxTokensPerRun : Int
  MaxLatencyPerAttemptMS : Int
  MaxCostPerAttemptUSD : ℚ
  MaxTokensPerAttempt : Int
  Source : String
deriving DecidableEq, Repr

/-- `resolveEffectiveLimits(policy, cap, hasCap)`: global policy overlaid by
the non-zero cap fields; the attempt-level limits come only from the cap;
`Source` names the cap whenever one was selected.  The Go function applies
its `if cap.X > 0` overrides sequentially on one record; since each `if`
writes a distinct field, that sequence equals this field-wise form. -/
def resolveEffectiveLimits (policy : OrchestrationPolicy) (cap : PolicyCap)
    (hasCap : Bool) : effectiveLimits :=
  if ¬ hasCap then
    { MaxCostPerRunUSD := policy.MaxCostPerRunUSD
      MaxAttemptsPerRun := policy.MaxAttemptsPerRun
      MaxTokensPerRun := policy.MaxTokensPerRun
      MaxLatencyPerAttemptMS := policy.MaxLatencyPerAttemptMS
      MaxCostPerAttemptUSD := 0
      MaxTokensPerAttempt := 0
      Source := "global-policy" }
  else
    { MaxCostPerRunUSD := if cap.MaxCostPerRunUSD > 0 then cap.MaxCostPerRunUSD
        else policy.MaxCostPerRunUSD
      MaxAttemptsPerRun := if cap.MaxAttemptsPerRun > 0 then cap.MaxAttemptsPerRun
        else policy.MaxAttemptsPerRun
      MaxTokensPerRun := if cap.MaxTokensPerRun > 0 then cap.MaxTokensPerRun
        else policy.MaxTokensPerRun
      MaxLatencyPerAttemptMS := if cap.MaxLatencyPerAttemptMS > 0 then
        cap.MaxLatencyPerAttemptMS else policy.MaxLatencyPerAttemptMS
      MaxCostPerAttemptUSD := if cap.MaxCostPerAttemptUSD > 0 then
        cap.MaxCostPerAttemptUSD else 0
      MaxTokensPerAttempt := if cap.MaxTokensPerAttempt > 0 then
        cap.MaxTokensPerAttempt else 0
      Source := "policy-cap:" ++ cap.ID }

/-- The marshalled payload of `logPolicyCapDryRunViolation`: the
`map[string]any` keys in the sorted order `json.Marshal` emits them. -/
def dryRunViolationPayload (cap : PolicyCap) : List (String × JVal) :=
  [("cap_id", .str cap.ID),
   ("cap_name", .str cap.Name),
   ("dry_run", .bool cap.DryRun),
   ("model", .str cap.Model),
   ("priority", .int cap.Priority),
   ("provider", .str cap.Provider),
   ("provider_type", .str cap.ProviderType)]

/-- The RunEvent inserted by `logPolicyCapDryRunViolation`. -/
def dryRunViolationEvent (runID : String) (cap : PolicyCap)
    (message eventID now : String) : RunEvent :=
  { ID := eventID, RunID := runID, EventType := "policy_cap_violation_dry_run"
    Level := "warn", Message := message
    DataJSON := .obj (dryRunViolationPayload cap), CreatedAt := now }

/-- One cap check of the cascade: the `violated` condition, the dry-run
guard of its block, and the two message texts. -/
structure CapCheckSpec where
  violated : Bool
  dryGuard : Bool
  dryMessage : String
  errMessage : String
deriving DecidableEq, Repr

/-- The shared shape of the six check blocks of `RecordPromptAttempt`:
`if violated { if dryGuard { log; continue } else { return ResourceExhausted } }`.
Dry-run events are inserted durably as the cascade runs, so the state is
threaded through (and kept) even when a later check fails. -/
def runCapChecks (runID : String) (cap : PolicyCap) (genEvtID : Nat → String)
    (now : String) : Nat → List CapCheckSpec → State → State × Option AppError
  | _, [], s => (s, none)
  | i, c :: rest, s =>
    if c.violated then
      if c.dryGuard then
        runCapChecks runID cap genEvtID now (i + 1) rest
          { s with runEvents := s.runEvents ++
              [dryRunViolationEvent runID cap c.dryMessage (genEvtID i) now] }
      else (s, some ⟨.resourceExhausted, c.errMessage⟩)
    else runCapChecks runID cap genEvtID now (i + 1) rest s

/-- The six checks of `RecordPromptAttempt`, in source order.  `existing`
is the number of prior attempts of the run, `totalCost`/`totalTokens` the
sums over them (the Go code computes the sums lazily inside the block
guarded by `MaxCostPerRunUSD > 0 || MaxTokensPerRun > 0`; the evaluation is
pure, so the checks are equivalent). -/
def attemptCapChecks (request : RecordPromptAttemptRequest)
    (limits : effectiveLimits) (cap : PolicyCap) (hasCap : Bool)
    (existing : Int) (totalCost : ℚ) (totalTokens : Int) : List CapCheckSpec :=
  let attemptTokens := request.TokensIn + request.TokensOut
  [ { violated := limits.MaxLatencyPerAttemptMS > 0 ∧
        request.LatencyMS > limits.MaxLatencyPerAttemptMS
      dryGuard := hasCap ∧ cap.MaxLatencyPerAttemptMS > 0 ∧ cap.DryRun
      dryMessage := "attempt latency exceeds cap limit"
      errMessage := "attempt latency exceeds policy cap (" ++ limits.Source ++ ")" },
    { violated := limits.MaxCostPerAttemptUSD > 0 ∧
        request.CostUSD > limits.MaxCostPerAttemptUSD
      dryGuard := hasCap ∧ cap.DryRun
      dryMessage := "attempt cost exceeds cap limit"
      errMessage := "attempt cost exceeds policy cap (" ++ limits.Source ++ ")" },
    { violated := limits.MaxTokensPerAttempt > 0 ∧
        attemptTokens > limits.MaxTokensPerAttempt
      dryGuard := hasCap ∧ cap.DryRun
      dryMessage := "attempt tokens exceed cap limit"
      errMessage := "attempt tokens exceed policy cap (" ++ limits.Source ++ ")" },
    { violated := limits.MaxAttemptsPerRun > 0 ∧ existing + 1 > limits.MaxAttemptsPerRun
      dryGuard := hasCap ∧ cap.MaxAttemptsPerRun > 0 ∧ cap.DryRun
      dryMessage := "run exceeds max attempts cap"
      errMessage := "run exceeds max attempts cap (" ++ limits.Source ++ ")" },
    { violated := limits.MaxCostPerRunUSD > 0 ∧
        totalCost + request.CostUSD > limits.MaxCostPerRunUSD
      dryGuard := hasCap ∧ cap.MaxCostPerRunUSD > 0 ∧ cap.DryRun
      dryMessage := "run exceeds max cost cap"
      errMessage := "run exceeds max cost cap (" ++ limits.Source ++ ")" },
    { violated := limits.MaxTokensPerRun > 0 ∧
        totalTokens + attemptTokens > limits.MaxTokensPerRun
      dryGuard := hasCap ∧ cap.MaxTokensPerRun > 0 ∧ cap.DryRun
      dryMessage := "run exceeds max tokens cap"
      errMessage := "run exceeds max tokens cap (" ++ limits.Source ++ ")" } ]

/-- The attempt record inserted on success, built from the normalised
request fields. -/
def buildAttempt (request : RecordPromptAttemptRequest)
    (runID providerType provider model outcome genID now : String) : PromptAttempt :=
  { ID := genID, RunID := runID, AttemptNumber := request.AttemptNumber
    Workflow := request.Workflow.trimSpace, AgentID := request.AgentID.trimSpace
    ProviderType := providerType, Provider := provider, Model := model
    PromptVersion := request.PromptVersion.trimSpace
    PromptHash := request.PromptHash.trimSpace, Outcome := outcome
    ErrorType := request.ErrorType.trimSpace
    ErrorMessage := request.ErrorMessage.trimSpace
    TokensIn := request.TokensIn, TokensOut := request.TokensOut
    CostUSD := request.CostUSD, LatencyMS := request.LatencyMS
    QualityScore := request.QualityScore, CreatedAt := now }

/-- The tail of `RecordPromptAttempt` after the cap-check cascade: the
first non-dry violation aborts with its error, otherwise the attempt is
persisted. -/
def afterChecks : State × Option AppError → PromptAttempt →
    State × Except AppError PromptAttempt
  | (s', some err), _ => (s', .error err)
  | (s', none), attempt =>
    ({ s' with attempts := s'.attempts ++ [attempt] }, .ok attempt)

/-- The portion of `RecordPromptAttempt` after validation and the
kill-switch gate: cap resolution, run lookup, the six cap checks, and the
final insert.  The normalised request fields are passed in explicitly. -/
def recordPromptAttemptBody (s : State) (request : RecordPromptAttemptRequest)
    (runID providerType provider model outcome : String)
    (genID : String) (genEvtID : Nat → String) (now : String) :
    State × Except AppError PromptAttempt :=
  let selected := selectPolicyCap s.policyCaps providerType provider model
  let hasCap := selected.isSome
  let cap := selected.getD PolicyCap.zero
  let limits := resolveEffectiveLimits s.policy cap hasCap
  -- ListRunsFiltered{RunID: runID, Limit: 1}
  match (s.runs.filter (fun run => run.ID == runID)).head? with
  | none => (s, .error ⟨.notFound, "run not found"⟩)
  | some run =>
    if run.Status ≠ "running" then
      (s, .error ⟨.failedPrecondition, "run is not in running state"⟩)
    else
      let existingAttempts := s.attempts.filter (fun a => a.RunID == runID)
      let totalCost := (existingAttempts.map (fun a => a.CostUSD)).sum
      let totalTokens := (existingAttempts.map (fun a => a.TokensIn + a.TokensOut)).sum
      let checks := attemptCapChecks request limits cap hasCap
        existingAttempts.length totalCost totalTokens
      afterChecks (runCapChecks runID cap genEvtID now 0 checks s)
        (buildAttempt request runID providerType provider model outcome genID now)

/-- `HubService.RecordPromptAttempt`.  `genID` stands in for `newID("pat")`,
`genEvtID i` for the i-th `newID("evt")` of the dry-run logger, `now` for
`timeNow()`. -/
def recordPromptAttempt (s : State) (request : RecordPromptAttemptRequest)
    (genID : String) (genEvtID : Nat → String) (now : String) :
    State × Except AppError PromptAttempt :=
  let runID := request.RunID.trimSpace
  let outcome := request.Outcome.trimSpace
  let model := request.Model.trimSpace
  let providerType := if request.ProviderType.trimSpace = "" then "api"
    else request.ProviderType.trimSpace
  let provider := request.Provider.trimSpace
  if runID = "" ∨ outcome = "" ∨ model = "" then
    (s, .error ⟨.invalidArgument, "run_id, outcome, and model are required"⟩)
  else if request.AttemptNumber ≤ 0 then
    (s, .error ⟨.invalidArgument, "attempt_number must be greater than 0"⟩)
  else if outcome ∉ validAttemptOutcomes then
    (s, .error ⟨.invalidArgument,
      "outcome must be one of: success, failed, timeout, retryable_error, tool_error"⟩)
  else if request.TokensIn < 0 ∨ request.TokensOut < 0 ∨ request.CostUSD < 0 ∨
      request.LatencyMS < 0 then
    (s, .error ⟨.invalidArgument, "tokens, cost, and latency must be non-negative"⟩)
  else if s.policy.KillSwitch then
    let reason := if s.policy.KillSwitchReason.trimSpace = "" then "kill switch is enabled"
      else s.policy.KillSwitchReason.trimSpace
    (s, .error ⟨.failedPrecondition, reason⟩)
  else
    recordPromptAttemptBody s request runID providerType provider model outcome
      genID genEvtID now

/-! ## `RecordRunEvent`, task CRUD (workflow.go) -/

/-- `HubService.RecordRunEvent`. -/
def recordRunEvent (s : State) (request : RecordRunEventRequest)
    (genID now : String) : State × Except AppError RunEvent :=
  let runID := request.RunID.trimSpace
  let eventType := request.EventType.trimSpace
  if runID = "" ∨ eventType = "" then
    (s, .error ⟨.invalidArgument, "run_id and event_type are required"⟩)
  else
    let level := if request.Level.trimSpace = "" then "info" else request.Level.trimSpace
    if level ∉ validEventLevels then
      (s, .error ⟨.invalidArgument, "level must be one of: info, warn, error"⟩)
    else if ¬ s.runs.any (fun run => run.ID == runID) then
      (s, .error ⟨.notFound, "run not found"⟩)
    else
      let event : RunEvent :=
        { ID := genID, RunID := runID, EventType := eventType, Level := level
          Message := request.Message.trimSpace, DataJSON := .raw request.DataJSON.trimSpace
          CreatedAt := now }
      ({ s with runEvents := s.runEvents ++ [event] }, .ok event)

/-- `HubService.CreateTask`. -/
def createTask (s : State) (request : CreateTaskRequest) (genID now : String) :
    State × Except AppError Task :=
  let title := request.Title.trimSpace
  if title = "" then (s, .error ⟨.invalidArgument, "title is required"⟩)
  else
    let status := if request.Status.trimSpace = "" then "todo" else request.Status.trimSpace
    if status ∉ validTaskStatuses then
      (s, .error ⟨.invalidArgument, "status must be one of: todo, in_progress, done, blocked"⟩)
    else
      let task : Task :=
        { ID := genID, Title := title, Details := request.Details.trimSpace
          Status := status, Tags := normalizeTags (request.Tags.getD [])
          CreatedAt := now, UpdatedAt := now }
      ({ s with tasks := upsertTaskStore s.tasks task }, .ok task)

/-- The field overlay of `UpdateTask`: non-empty request strings replace
the stored value (the title guard tests the trimmed title, the others the
raw field), a non-nil tag slice is normalised, `UpdatedAt` is stamped. -/
def applyTaskOverlays (request : UpdateTaskRequest) (item : Task) (now : String) : Task :=
  { ID := item.ID
    Title := if request.Title.trimSpace ≠ "" then request.Title.trimSpace else item.Title
    Details := if request.Details ≠ "" then request.Details.trimSpace else item.Details
    Status := if request.Status ≠ "" then request.Status.trimSpace else item.Status
    Tags := match request.Tags with
      | some tags => normalizeTags tags
      | none => item.Tags
    CreatedAt := item.CreatedAt
    UpdatedAt := now }

/-- `HubService.UpdateTask`. -/
def updateTask (s : State) (request : UpdateTaskRequest) (now : String) :
    State × Except AppError Task :=
  let id := request.ID.trimSpace
  if id = "" then (s, .error ⟨.invalidArgument, "id is required"⟩)
  else
    match s.tasks.find? (fun item => item.ID == id) with
    | none => (s, .error ⟨.notFound, "task not found"⟩)
    | some item =>
      if request.Status ≠ "" ∧ request.Status.trimSpace ∉ validTaskStatuses then
        (s, .error ⟨.invalidArgument, "status must be one of: todo, in_progress, done, blocked"⟩)
      else
        let item := applyTaskOverlays request item now
        ({ s with tasks := upsertTaskStore s.tasks item }, .ok item)

/-- `HubService.DeleteTask`. -/
def deleteTask (s : State) (id : String) : State × Except AppError Unit :=
  if id.trimSpace = "" then (s, .error ⟨.invalidArgument, "id is required"⟩)
  else
    let (tasks', deleted) := deleteTaskStore s.tasks id.trimSpace
    if deleted then ({ s with tasks := tasks' }, .ok ())
    else ({ s with tasks := tasks' }, .error ⟨.notFound, "task not found"⟩)

/-- `HubService.DeletePolicyCap`. -/
def deletePolicyCap (s : State) (id : String) : State × Except AppError Unit :=
  if id.trimSpace = "" then (s, .error ⟨.invalidArgument, "id is required"⟩)
  else
    let (caps', deleted) := deleteCapStore s.policyCaps id.trimSpace
    if deleted then ({ s with policyCaps := caps' }, .ok ())
    else ({ s with policyCaps := caps' }, .error ⟨.notFound, "policy cap not found"⟩)

/-- The `ListTasks` comparator (`updated_at` desc, then id desc): `a`
sorts no later than `b`. -/
def taskBefore (a b : Task) : Prop :=
  b.UpdatedAt < a.UpdatedAt ∨ (b.UpdatedAt = a.UpdatedAt ∧ b.ID ≤ a.ID)

instance (a b : Task) : Decidable (taskBefore a b) := by
  unfold taskBefore; infer_instance

/-- `HubService.ListTasks` (sorted copy of the stored tasks). -/
def listTasks (s : State) : List Task :=
  s.tasks.insertionSort taskBefore

/-! ## The mutating service surface as a step relation

Every write path of the `HubService` that touches the modelled state.
(`CreateNote`, `AppendChangelog` and `RecordBenchmark` only append to the
`notes` / `changelog` / `benchmarks` collections, which no claim mentions,
so they are not part of the modelled state.) -/

/-- One service-level mutation. -/
inductive Step : State → State → Prop where
  | createTask (s : State) (req : CreateTaskRequest) (genID now : String) :
      Step s (createTask s req genID now).1
  | updateTask (s : State) (req : UpdateTaskRequest) (now : String) :
      Step s (updateTask s req now).1
  | deleteTask (s : State) (id : String) :
      Step s (deleteTask s id).1
  | setPolicy (s : State) (req : SetPolicyRequest) (now : String) :
      Step s (setPolicy s req now).1
  | upsertPolicyCap (s : State) (req : UpsertPolicyCapRequest) (genID now : String) :
      Step s (upsertPolicyCap s req genID now).1
  | deletePolicyCap (s : State) (id : String) :
      Step s (deletePolicyCap s id).1
  | startRun (s : State) (req : StartRunRequest) (genID now : String) :
      Step s (startRun s req genID now).1
  | finishRun (s : State) (req : FinishRunRequest) (now : String) (dur : Option Int) :
      Step s (finishRun s req now dur).1
  | recordPromptAttempt (s : State) (req : RecordPromptAttemptRequest)
      (genID : String) (genEvtID : Nat → String) (now : String) :
      Step s (recordPromptAttempt s req genID genEvtID now).1
  | recordRunEvent (s : State) (req : RecordRunEventRequest) (genID now : String) :
      Step s (recordRunEvent s req genID now).1

/-- States reachable from the bootstrap state through the service API. -/
def Reachable (s : State) : Prop :=
  Relation.ReflTransGen Step initialState s

/-! ### Frame lemmas -/

theorem runCapChecks_fields_all (runID : String) (cap : PolicyCap) (genEvtID : Nat → String)
    (now : String) :
    ∀ (checks : List CapCheckSpec) (i : Nat) (s : State),
      (runCapChecks runID cap genEvtID now i checks s).1.tasks = s.tasks ∧
      (runCapChecks runID cap genEvtID now i checks s).1.runs = s.runs ∧
      (runCapChecks runID cap genEvtID now i checks s).1.attempts = s.attempts ∧
      (runCapChecks runID cap genEvtID now i checks s).1.policy = s.policy ∧
      (runCapChecks runID cap genEvtID now i checks s).1.policyCaps = s.policyCaps := by
  intro checks
  induction checks with
  | nil => intro i s; simp [runCapChecks]
  | cons c rest ih =>
    intro i s
    by_cases hv : c.violated
    · by_cases hd : c.dryGuard
      · simpa [runCapChecks, hv, hd] using
          ih (i + 1) { s with runEvents := s.runEvents ++
            [dryRunViolationEvent runID cap c.dryMessage (genEvtID i) now] }
      · simp [runCapChecks, hv, hd]
    · simpa [runCapChecks, hv] using ih (i + 1) s

theorem runCapChecks_fields {runID : String} {cap : PolicyCap} {genEvtID : Nat → String}
    {now : String} {checks : List CapCheckSpec} {i : Nat} {s s' : State}
    {res : Option AppError}
    (h : runCapChecks runID cap genEvtID now i checks s = (s', res)) :
    s'.tasks = s.tasks ∧ s'.runs = s.runs ∧ s'.attempts = s.attempts ∧
    s'.policy = s.policy ∧ s'.policyCaps = s.policyCaps := by
  have hall := runCapChecks_fields_all runID cap genEvtID now checks i s
  rw [h] at hall
  exact hall

theorem createTask_frame (s : State) (req : CreateTaskRequest) (genID now : String) :
    (createTask s req genID now).1.runs = s.runs ∧
    (createTask s req genID now).1.attempts = s.attempts ∧
    (createTask s req genID now).1.policy = s.policy := by
  refine ⟨?_, ?_, ?_⟩ <;> (simp only [createTask]; repeat' split) <;> rfl

theorem updateTask_frame (s : State) (req : UpdateTaskRequest) (now : String) :
    (updateTask s req now).1.runs = s.runs ∧
    (updateTask s req now).1.attempts = s.attempts ∧
    (updateTask s req now).1.policy = s.policy := by
  refine ⟨?_, ?_, ?_⟩ <;> (simp only [updateTask]; repeat' split) <;> rfl

theorem deleteTask_frame (s : State) (id : String) :
    (deleteTask s id).1.runs = s.runs ∧
    (deleteTask s id).1.attempts = s.attempts ∧
    (deleteTask s id).1.policy = s.policy := by
  refine ⟨?_, ?_, ?_⟩ <;> (simp only [deleteTask]; repeat' split) <;> rfl

theorem deletePolicyCap_frame (s : State) (id : String) :
    (deletePolicyCap s id).1.runs = s.runs ∧
    (deletePolicyCap s id).1.attempts = s.attempts ∧
    (deletePolicyCap s id).1.policy = s.policy := by
  refine ⟨?_, ?_, ?_⟩ <;> (simp only [deletePolicyCap]; repeat' split) <;> rfl

theorem upsertPolicyCap_frame (s : State) (req : UpsertPolicyCapRequest)
    (genID now : String) :
    (upsertPolicyCap s req genID now).1.runs = s.runs ∧
    (upsertPolicyCap s req genID now).1.attempts = s.attempts ∧
    (upsertPolicyCap s req genID now).1.policy = s.policy := by
  refine ⟨?_, ?_, ?_⟩ <;> (simp only [upsertPolicyCap]; repeat' split) <;> rfl

theorem recordRunEvent_frame (s : State) (req : RecordRunEventRequest)
    (genID now : String) :
    (recordRunEvent s req genID now).1.runs = s.runs ∧
    (recordRunEvent s req genID now).1.attempts = s.attempts ∧
    (recordRunEvent s req genID now).1.policy = s.policy := by
  refine ⟨?_, ?_, ?_⟩ <;> (simp only [recordRunEvent]; repeat' split) <;> rfl

theorem setPolicy_frame (s : State) (req : SetPolicyRequest) (now : String) :
    (setPolicy s req now).1.runs = s.runs ∧
    (setPolicy s req now).1.attempts = s.attempts ∧
    (setPolicy s req now).1.tasks = s.tasks := by
  refine ⟨?_, ?_, ?_⟩ <;> (simp only [setPolicy]; repeat' split) <;> rfl

/-- The kill-switch reason stored by `SetPolicy` is either the previous one
or the trimmed requested one. -/
theorem setPolicy_reason (s : State) (req : SetPolicyRequest) (now : String) :
    (setPolicy s req now).1.policy.KillSwitchReason = s.policy.KillSwitchReason ∨
    ∃ v, req.KillSwitchReason = some v ∧
      (setPolicy s req now).1.policy.KillSwitchReason = v.trimSpace := by
  simp only [setPolicy]
  repeat' split
  all_goals try exact Or.inl rfl
  all_goals
    rcases hre : req.KillSwitchReason with _ | v
    · left
      simp [applyPolicyOverlays, hre]
    · right
      exact ⟨v, rfl, by simp [applyPolicyOverlays, hre]⟩

theorem startRun_frame (s : State) (req : StartRunRequest) (genID now : String) :
    (startRun s req genID now).1.attempts = s.attempts ∧
    (startRun s req genID now).1.policy = s.policy := by
  refine ⟨?_, ?_⟩ <;> (simp only [startRun]; repeat' split) <;> rfl

/-- `StartRun` either leaves the run list alone or appends one run in
status `running` with all rolling counters zero. -/
theorem startRun_runs (s : State) (req : StartRunRequest) (genID now : String) :
    (startRun s req genID now).1.runs = s.runs ∨
    ∃ run, (startRun s req genID now).1.runs = s.runs ++ [run] ∧
      run.Status = "running" ∧ run.TotalAttempts = 0 ∧
      run.SuccessAttempts = 0 ∧ run.FailedAttempts = 0 := by
  simp only [startRun]
  repeat' split
  all_goals try exact Or.inl rfl
  all_goals exact Or.inr ⟨_, rfl, rfl, rfl, rfl, rfl⟩

theorem finishRun_frame (s : State) (req : FinishRunRequest) (now : String)
    (dur : Option Int) :
    (finishRun s req now dur).1.attempts = s.attempts ∧
    (finishRun s req now dur).1.policy = s.policy := by
  refine ⟨?_, ?_⟩ <;> (simp only [finishRun]; repeat' split) <;> rfl

theorem finishRunFold_status (atts : List PromptAttempt) :
    ∀ run : AgentRun, (finishRunFold run atts).Status = run.Status := by
  induction atts with
  | nil => intro run; rfl
  | cons a rest ih =>
    intro run
    show (finishRunFold _ rest).Status = run.Status
    rw [ih]

/-- `FinishRun` either leaves the run list alone or writes back one run in
a non-`running` status. -/
theorem finishRun_runs (s : State) (req : FinishRunRequest) (now : String)
    (dur : Option Int) :
    (finishRun s req now dur).1.runs = s.runs ∨
    ∃ r, (finishRun s req now dur).1.runs = updateRunStore s.runs r ∧
      r.Status ≠ "running" := by
  simp only [finishRun]
  repeat' split
  all_goals try exact Or.inl rfl
  all_goals
    right
    refine ⟨_, rfl, ?_⟩
    rw [finishRunFold_status]
    simp only
    tauto

/-- Frame of the check cascade followed by the conditional insert. -/
theorem afterChecks_runCapChecks_fields (runID : String) (cap : PolicyCap)
    (genEvtID : Nat → String) (now : String) (i : Nat) (checks : List CapCheckSpec)
    (s : State) (att : PromptAttempt) :
    (afterChecks (runCapChecks runID cap genEvtID now i checks s) att).1.runs = s.runs ∧
    (afterChecks (runCapChecks runID cap genEvtID now i checks s) att).1.policy = s.policy ∧
    (afterChecks (runCapChecks runID cap genEvtID now i checks s) att).1.tasks = s.tasks := by
  rcases h : runCapChecks runID cap genEvtID now i checks s with ⟨s2, res⟩
  obtain ⟨ht, hr, ha, hp, hc⟩ := runCapChecks_fields h
  rcases res with _ | err <;> simp [afterChecks, ht, hr, hp]

/-- Attempts after the check cascade plus conditional insert: old ones or
the inserted record. -/
theorem afterChecks_runCapChecks_attempts (runID : String) (cap : PolicyCap)
    (genEvtID : Nat → String) (now : String) (i : Nat) (checks : List CapCheckSpec)
    (s : State) (att : PromptAttempt) :
    ∀ a ∈ (afterChecks (runCapChecks runID cap genEvtID now i checks s) att).1.attempts,
      a ∈ s.attempts ∨ a = att := by
  rcases h : runCapChecks runID cap genEvtID now i checks s with ⟨s2, res⟩
  obtain ⟨ht, hr, ha, hp, hc⟩ := runCapChecks_fields h
  rcases res with _ | err
  · intro a hmem
    simp only [afterChecks, ha, List.mem_append, List.mem_singleton] at hmem
    exact hmem
  · intro a hmem
    simp only [afterChecks, ha] at hmem
    exact Or.inl hmem

theorem recordPromptAttemptBody_frame (s : State) (req : RecordPromptAttemptRequest)
    (runID providerType provider model outcome : String)
    (genID : String) (genEvtID : Nat → String) (now : String) :
    (recordPromptAttemptBody s req runID providerType provider model outcome
        genID genEvtID now).1.runs = s.runs ∧
    (recordPromptAttemptBody s req runID providerType provider model outcome
        genID genEvtID now).1.policy = s.policy ∧
    (recordPromptAttemptBody s req runID providerType provider model outcome
        genID genEvtID now).1.tasks = s.tasks := by
  simp only [recordPromptAttemptBody]
  repeat' split
  all_goals try exact ⟨rfl, rfl, rfl⟩
  all_goals exact afterChecks_runCapChecks_fields _ _ _ _ _ _ _ _

theorem recordPromptAttempt_frame (s : State) (req : RecordPromptAttemptRequest)
    (genID : String) (genEvtID : Nat → String) (now : String) :
    (recordPromptAttempt s req genID genEvtID now).1.runs = s.runs ∧
    (recordPromptAttempt s req genID genEvtID now).1.policy = s.policy ∧
    (recordPromptAttempt s req genID genEvtID now).1.tasks = s.tasks := by
  simp only [recordPromptAttempt]
  repeat' split
  all_goals try exact ⟨rfl, rfl, rfl⟩
  all_goals exact recordPromptAttemptBody_frame s req _ _ _ _ _ genID genEvtID now

/-- Every attempt present after the body of `RecordPromptAttempt` was
either already stored or belongs to a run stored in status `running`. -/
theorem recordPromptAttemptBody_attempts (s : State) (req : RecordPromptAttemptRequest)
    (runID providerType provider model outcome : String)
    (genID : String) (genEvtID : Nat → String) (now : String) :
    ∀ a ∈ (recordPromptAttemptBody s req runID providerType provider model outcome
        genID genEvtID now).1.attempts,
      a ∈ s.attempts ∨
      ∃ run ∈ s.runs, run.ID = a.RunID ∧ run.Status = "running" := by
  simp only [recordPromptAttemptBody]
  split
  · intro a ha
    exact Or.inl ha
  · rename_i run hhead
    split
    · intro a ha
      exact Or.inl ha
    · rename_i hstatus
      intro a ha
      rcases afterChecks_runCapChecks_attempts _ _ _ _ _ _ _ _ a ha with h | h
      · exact Or.inl h
      · right
        have hrunmem : run ∈ s.runs.filter (fun r => r.ID == runID) :=
          List.mem_of_mem_head? hhead
        have hmem := List.mem_filter.mp hrunmem
        refine ⟨run, hmem.1, ?_, ?_⟩
        · subst h
          simpa [buildAttempt] using hmem.2
        · simpa using hstatus

theorem recordPromptAttempt_attempts (s : State) (req : RecordPromptAttemptRequest)
    (genID : String) (genEvtID : Nat → String) (now : String) :
    ∀ a ∈ (recordPromptAttempt s req genID genEvtID now).1.attempts,
      a ∈ s.attempts ∨
      ∃ run ∈ s.runs, run.ID = a.RunID ∧ run.Status = "running" := by
  simp only [recordPromptAttempt]
  repeat' split
  all_goals try (intro a ha; exact Or.inl ha)
  all_goals exact recordPromptAttemptBody_attempts s req _ _ _ _ _ genID genEvtID now

/-! ### Reachability invariants -/

/-- Runs in status `running` carry zero rolling counters (`StartRun` creates
them that way and only `FinishRun` — which moves the run to a terminal
status — ever writes them). -/
def CountersZero (s : State) : Prop :=
  ∀ run ∈ s.runs, run.Status = "running" →
    run.TotalAttempts = 0 ∧ run.SuccessAttempts = 0 ∧ run.FailedAttempts = 0

/-- The stored kill-switch reason is always in trimmed form (`SetPolicy`
trims it before storing). -/
def ReasonTrimmed (s : State) : Prop :=
  s.policy.KillSwitchReason.trimSpace = s.policy.KillSwitchReason

/-- The state invariant maintained by every service write. -/
def Inv (s : State) : Prop := CountersZero s ∧ ReasonTrimmed s

theorem mem_updateRunStore {runs : List AgentRun} {run a : AgentRun}
    (h : a ∈ updateRunStore runs run) : a ∈ runs ∨ a = run := by
  induction runs with
  | nil =>
    simp only [updateRunStore, List.mem_singleton] at h
    exact Or.inr h
  | cons r rest ih =>
    simp only [updateRunStore] at h
    split at h
    · rcases List.mem_cons.mp h with h | h
      · exact Or.inr h
      · exact Or.inl (List.mem_cons_of_mem r h)
    · rcases List.mem_cons.mp h with h | h
      · exact Or.inl (h ▸ List.mem_cons_self r rest)
      · rcases ih h with h | h
        · exact Or.inl (List.mem_cons_of_mem r h)
        · exact Or.inr h

theorem updateRunStore_self (runs : List AgentRun) (run : AgentRun) :
    run ∈ updateRunStore runs run := by
  induction runs with
  | nil => simp [updateRunStore]
  | cons r rest ih =>
    simp only [updateRunStore]
    split
    · exact List.mem_cons_self run rest
    · exact List.mem_cons_of_mem r ih

theorem step_inv {s s' : State} (hstep : Step s s') (hinv : Inv s) : Inv s' := by
  obtain ⟨hz, ht⟩ := hinv
  cases hstep with
  | createTask req genID now =>
    obtain ⟨hr, _, hp⟩ := createTask_frame s req genID now
    exact ⟨by rw [CountersZero, hr]; exact hz, by rw [ReasonTrimmed, hp]; exact ht⟩
  | updateTask req now =>
    obtain ⟨hr, _, hp⟩ := updateTask_frame s req now
    exact ⟨by rw [CountersZero, hr]; exact hz, by rw [ReasonTrimmed, hp]; exact ht⟩
  | deleteTask id =>
    obtain ⟨hr, _, hp⟩ := deleteTask_frame s id
    exact ⟨by rw [CountersZero, hr]; exact hz, by rw [ReasonTrimmed, hp]; exact ht⟩
  | deletePolicyCap id =>
    obtain ⟨hr, _, hp⟩ := deletePolicyCap_frame s id
    exact ⟨by rw [CountersZero, hr]; exact hz, by rw [ReasonTrimmed, hp]; exact ht⟩
  | upsertPolicyCap req genID now =>
    obtain ⟨hr, _, hp⟩ := upsertPolicyCap_frame s req genID now
    exact ⟨by rw [CountersZero, hr]; exact hz, by rw [ReasonTrimmed, hp]; exact ht⟩
  | recordRunEvent req genID now =>
    obtain ⟨hr, _, hp⟩ := recordRunEvent_frame s req genID now
    exact ⟨by rw [CountersZero, hr]; exact hz, by rw [ReasonTrimmed, hp]; exact ht⟩
  | setPolicy req now =>
    obtain ⟨hr, _, _⟩ := setPolicy_frame s req now
    refine ⟨by rw [CountersZero, hr]; exact hz, ?_⟩
    rcases setPolicy_reason s req now with h | ⟨v, _, h⟩
    · rw [ReasonTrimmed, h]; exact ht
    · rw [ReasonTrimmed, h]; exact String.trimSpace_idem v
  | startRun req genID now =>
    obtain ⟨_, hp⟩ := startRun_frame s req genID now
    refine ⟨?_, by rw [ReasonTrimmed, hp]; exact ht⟩
    rcases startRun_runs s req genID now with h | ⟨run, h, hrs, h1, h2, h3⟩
    · rw [CountersZero, h]; exact hz
    · rw [CountersZero, h]
      intro r hr hrun
      rcases List.mem_append.mp hr with hr | hr
      · exact hz r hr hrun
      · rw [List.mem_singleton] at hr
        subst hr
        exact ⟨h1, h2, h3⟩
  | finishRun req now dur =>
    obtain ⟨_, hp⟩ := finishRun_frame s req now dur
    refine ⟨?_, by rw [ReasonTrimmed, hp]; exact ht⟩
    rcases finishRun_runs s req now dur with h | ⟨r, h, hrs⟩
    · rw [CountersZero, h]; exact hz
    · rw [CountersZero, h]
      intro r' hr' hrun
      rcases mem_updateRunStore hr' with hmem | hmem
      · exact hz r' hmem hrun
      · subst hmem
        exact absurd hrun hrs
  | recordPromptAttempt req genID genEvtID now =>
    obtain ⟨hr, hp, _⟩ := recordPromptAttempt_frame s req genID genEvtID now
    exact ⟨by rw [CountersZero, hr]; exact hz, by rw [ReasonTrimmed, hp]; exact ht⟩

theorem initialState_inv : Inv initialState := by
  constructor
  · intro run hrun
    cases hrun
  · rfl

theorem reachable_inv {s : State} (h : Reachable s) : Inv s := by
  induction h with
  | refl => exact initialState_inv
  | tail _ hstep ih => exact step_inv hstep ih

/-! ### C6: the kill switch -/

/-- **C6.**  On any reachable state whose policy has the kill switch set,
`StartRun` and `RecordPromptAttempt` never change the state and always
fail; when the request passes validation the failure is
`FailedPrecondition` carrying `kill_switch_reason` as the message (or
"kill switch is enabled" when the stored reason is empty). -/
theorem killSwitch_rejects (s : State) (hreach : Reachable s)
    (hkill : s.policy.KillSwitch = true) :
    (∀ (req : StartRunRequest) (genID now : String),
      (startRun s req genID now).1 = s ∧
      ∃ e, (startRun s req genID now).2 = .error e) ∧
    (∀ (req : RecordPromptAttemptRequest) (genID : String) (genEvtID : Nat → String)
        (now : String),
      (recordPromptAttempt s req genID genEvtID now).1 = s ∧
      ∃ e, (recordPromptAttempt s req genID genEvtID now).2 = .error e) ∧
    (∀ (req : StartRunRequest) (genID now : String),
      req.Workflow.trimSpace ≠ "" → req.AgentID.trimSpace ≠ "" → 0 ≤ req.MaxRetries →
      (startRun s req genID now).2 = .error ⟨.failedPrecondition,
        if s.policy.KillSwitchReason = "" then "kill switch is enabled"
        else s.policy.KillSwitchReason⟩) ∧
    (∀ (req : RecordPromptAttemptRequest) (genID : String) (genEvtID : Nat → String)
        (now : String),
      req.RunID.trimSpace ≠ "" → req.Model.trimSpace ≠ "" →
      req.Outcome.trimSpace ∈ validAttemptOutcomes → 0 < req.AttemptNumber →
      0 ≤ req.TokensIn → 0 ≤ req.TokensOut → 0 ≤ req.CostUSD → 0 ≤ req.LatencyMS →
      (recordPromptAttempt s req genID genEvtID now).2 = .error ⟨.failedPrecondition,
        if s.policy.KillSwitchReason = "" then "kill switch is enabled"
        else s.policy.KillSwitchReason⟩) := by
  have htrim : s.policy.KillSwitchReason.trimSpace = s.policy.KillSwitchReason :=
    (reachable_inv hreach).2
  refine ⟨?_, ?_, ?_, ?_⟩
  · intro req genID now
    constructor
    · simp only [startRun]
      repeat' split
      all_goals first | rfl | exact absurd hkill (by assumption)
    · simp only [startRun]
      repeat' split
      all_goals first | exact ⟨_, rfl⟩ | exact absurd hkill (by assumption)
  · intro req genID genEvtID now
    constructor
    · simp only [recordPromptAttempt]
      repeat' split
      all_goals first | rfl | exact absurd hkill (by assumption)
    · simp only [recordPromptAttempt]
      repeat' split
      all_goals first | exact ⟨_, rfl⟩ | exact absurd hkill (by assumption)
  · intro req genID now hw ha hm
    have h1 : ¬(req.Workflow.trimSpace = "" ∨ req.AgentID.trimSpace = "") := by
      push_neg
      exact ⟨hw, ha⟩
    have h2 : ¬(req.MaxRetries < 0) := by omega
    simp only [startRun, if_neg h1, if_neg h2, hkill, if_pos]
    rw [htrim]
  · intro req genID genEvtID now hr hm ho hn ht1 ht2 hc hl
    have hone : req.Outcome.trimSpace ≠ "" := by
      intro h
      rw [h] at ho
      simp [validAttemptOutcomes] at ho
    have h1 : ¬(req.RunID.trimSpace = "" ∨ req.Outcome.trimSpace = "" ∨
        req.Model.trimSpace = "") := by
      push_neg
      exact ⟨hr, hone, hm⟩
    have h2 : ¬(req.AttemptNumber ≤ 0) := by omega
    have h3 : ¬(req.Outcome.trimSpace ∉ validAttemptOutcomes) := fun hcon => hcon ho
    have h4 : ¬(req.TokensIn < 0 ∨ req.TokensOut < 0 ∨ req.CostUSD < 0 ∨
        req.LatencyMS < 0) := by
      push_neg
      exact ⟨ht1, ht2, hc, hl⟩
    simp only [recordPromptAttempt, if_neg h1, if_neg h2, if_neg h3,
      if_neg h4, hkill, if_pos]
    rw [htrim]

/-- Witness for `killSwitch_rejects`: from the bootstrap state, an operator
enables the kill switch with reason "maintenance"; a subsequent valid
`StartRun` fails `FailedPrecondition` with that reason and changes
nothing. -/
theorem killSwitch_rejects_witness :
    (startRun (setPolicy initialState
        { KillSwitch := some true, KillSwitchReason := some "maintenance" } "t1").1
      { Workflow := "w", AgentID := "a" } "run1" "t2").2 =
      .error ⟨.failedPrecondition, "maintenance"⟩ ∧
    (startRun (setPolicy initialState
        { KillSwitch := some true, KillSwitchReason := some "maintenance" } "t1").1
      { Workflow := "w", AgentID := "a" } "run1" "t2").1 =
      (setPolicy initialState
        { KillSwitch := some true, KillSwitchReason := some "maintenance" } "t1").1 := by
  have hreach : Reachable (setPolicy initialState
      { KillSwitch := some true, KillSwitchReason := some "maintenance" } "t1").1 :=
    Relation.ReflTransGen.single
      (Step.setPolicy initialState
        { KillSwitch := some true, KillSwitchReason := some "maintenance" } "t1")
  have h := killSwitch_rejects _ hreach (by decide)
  refine ⟨?_, (h.1 { Workflow := "w", AgentID := "a" } "run1" "t2").1⟩
  have hmsg := h.2.2.1 { Workflow := "w", AgentID := "a" } "run1" "t2"
    (by decide) (by decide) (by decide)
  rw [hmsg]
  rfl

/-! ### C4: FinishRun recomputes the counters from stored attempts -/

theorem finishRunFold_counts (atts : List PromptAttempt) :
    ∀ run : AgentRun,
      (finishRunFold run atts).TotalAttempts = run.TotalAttempts + atts.length ∧
      (finishRunFold run atts).SuccessAttempts = run.SuccessAttempts +
        (atts.filter (fun a => a.Outcome == "success")).length ∧
      (finishRunFold run atts).FailedAttempts = run.FailedAttempts +
        (atts.filter (fun a => !(a.Outcome == "success"))).length := by
  induction atts with
  | nil => intro run; simp [finishRunFold]
  | cons a rest ih =>
    intro run
    have hstep : finishRunFold run (a :: rest) = finishRunFold
        { run with
            TotalAttempts := run.TotalAttempts + 1
            TotalTokensIn := run.TotalTokensIn + a.TokensIn
            TotalTokensOut := run.TotalTokensOut + a.TokensOut
            TotalCostUSD := run.TotalCostUSD + a.CostUSD
            SuccessAttempts := if a.Outcome == "success" then run.SuccessAttempts + 1
              else run.SuccessAttempts
            FailedAttempts := if a.Outcome == "success" then run.FailedAttempts
              else run.FailedAttempts + 1 } rest := rfl
    rw [hstep]
    obtain ⟨h1, h2, h3⟩ := ih _
    refine ⟨by rw [h1]; simp; omega, ?_, ?_⟩
    · rw [h2]
      by_cases ho : a.Outcome == "success" <;> simp [ho, List.filter_cons] <;> omega
    · rw [h3]
      by_cases ho : a.Outcome == "success" <;> simp [ho, List.filter_cons] <;> omega

theorem length_filter_complement (l : List PromptAttempt) (p : PromptAttempt → Bool) :
    (l.filter p).length + (l.filter (fun a => !(p a))).length = l.length := by
  induction l with
  | nil => rfl
  | cons a rest ih =>
    by_cases hp : p a <;> simp [List.filter_cons, hp] <;> omega

/-- **C4.**  On a reachable state, finishing a run that is in status
`running` succeeds and returns (and stores) the run with
`total_attempts` = number of stored attempts of the run,
`success_attempts` = number of those with outcome `success`, and
`failed_attempts` = `total_attempts` − `success_attempts`: the counters
are recomputed from the stored attempts (the request carries no attempt
numbers at all). -/
theorem finishRun_counters (s : State) (hreach : Reachable s)
    (req : FinishRunRequest) (now : String) (dur : Option Int) (run : AgentRun)
    (hid : req.RunID.trimSpace ≠ "")
    (hfind : s.runs.find? (fun r => r.ID == req.RunID.trimSpace) = some run)
    (hrunning : run.Status = "running")
    (hvalid : (if req.Status.trimSpace = "" then "completed"
        else req.Status.trimSpace) ∈ validRunStatuses)
    (hnotrun : (if req.Status.trimSpace = "" then "completed"
        else req.Status.trimSpace) ≠ "running") :
    ∃ s' r, finishRun s req now dur = (s', .ok r) ∧
      r.TotalAttempts =
        ((s.attempts.filter (fun a => a.RunID == req.RunID.trimSpace)).length : Int) ∧
      r.SuccessAttempts =
        (((s.attempts.filter (fun a => a.RunID == req.RunID.trimSpace)).filter
          (fun a => a.Outcome == "success")).length : Int) ∧
      r.FailedAttempts = r.TotalAttempts - r.SuccessAttempts ∧
      r ∈ s'.runs := by
  have hzero := (reachable_inv hreach).1 run (List.mem_of_find?_eq_some hfind) hrunning
  have hcond : ¬((if req.Status.trimSpace = "" then "completed"
      else req.Status.trimSpace) ∉ validRunStatuses ∨
      (if req.Status.trimSpace = "" then "completed"
        else req.Status.trimSpace) = "running") := by
    push_neg
    exact ⟨hvalid, hnotrun⟩
  simp only [finishRun, if_neg hid, if_neg hcond, hfind]
  set base := (match dur with
    | some d =>
      { run with
          Status := if req.Status.trimSpace = "" then "completed" else req.Status.trimSpace,
          FinishedAt := now, LastError := req.LastError.trimSpace, DurationMS := d }
    | none =>
      { run with
          Status := if req.Status.trimSpace = "" then "completed" else req.Status.trimSpace,
          FinishedAt := now, LastError := req.LastError.trimSpace }) with hbase
  have hbase0 : base.TotalAttempts = 0 ∧ base.SuccessAttempts = 0 ∧
      base.FailedAttempts = 0 := by
    rcases dur with _ | d <;> simp [hbase] <;> exact hzero
  obtain ⟨hc1, hc2, hc3⟩ :=
    finishRunFold_counts (s.attempts.filter (fun a => a.RunID == req.RunID.trimSpace)) base
  refine ⟨_, _, rfl, ?_, ?_, ?_, ?_⟩
  · rw [hc1, hbase0.1]
    omega
  · rw [hc2, hbase0.2.1]
    omega
  · rw [hc3, hc1, hc2, hbase0.1, hbase0.2.1, hbase0.2.2]
    have := length_filter_complement
      (s.attempts.filter (fun a => a.RunID == req.RunID.trimSpace))
      (fun a => a.Outcome == "success")
    omega
  · exact updateRunStore_self s.runs _

/-- Witness for `finishRun_counters`: start a run on the bootstrap state
and finish it; the recomputed counters are all zero (no attempts). -/
theorem finishRun_counters_witness :
    ∃ s' r, finishRun (startRun initialState { Workflow := "w", AgentID := "a" }
        "run1" "t1").1 { RunID := "run1" } "t2" (some 7) = (s', .ok r) ∧
      r.TotalAttempts = 0 ∧ r.SuccessAttempts = 0 ∧ r.FailedAttempts = 0 := by
  have hreach : Reachable (startRun initialState { Workflow := "w", AgentID := "a" }
      "run1" "t1").1 :=
    Relation.ReflTransGen.single
      (Step.startRun initialState { Workflow := "w", AgentID := "a" } "run1" "t1")
  obtain ⟨s', r, heq, h1, h2, h3, _⟩ := finishRun_counters _ hreach
    { RunID := "run1" } "t2" (some 7)
    { ID := "run1", TaskID := "", Workflow := "w", AgentID := "a"
      PromptVersion := "", ModelPolicy := "", Status := "running", MaxRetries := 0
      TotalAttempts := 0, SuccessAttempts := 0, FailedAttempts := 0
      TotalTokensIn := 0, TotalTokensOut := 0, TotalCostUSD := 0, DurationMS := 0
      LastError := "", StartedAt := "t1", FinishedAt := "" }
    (by decide) (by decide) (by decide) (by decide) (by decide)
  refine ⟨s', r, heq, ?_, ?_, ?_⟩
  · rw [h1]; decide
  · rw [h2]; decide
  · rw [h3, h1, h2]; decide

/-! ### C3: terminal runs and attempt insertion -/

/-- **C3** (amended).  (1) A valid `RecordPromptAttempt` against a stored
run that is not in status `running` fails `FailedPrecondition` and changes
nothing.  (2) Across every service write, an attempt present afterwards
was either present before or references a run that was stored in status
`running` when it was inserted.  (`FinishRun`, however, does NOT refuse
terminal runs — see the counterexample.) -/
theorem terminal_runs_reject_attempts :
    (∀ (s : State) (req : RecordPromptAttemptRequest) (genID : String)
        (genEvtID : Nat → String) (now : String) (run : AgentRun),
      req.RunID.trimSpace ≠ "" → req.Model.trimSpace ≠ "" →
      req.Outcome.trimSpace ∈ validAttemptOutcomes → 0 < req.AttemptNumber →
      0 ≤ req.TokensIn → 0 ≤ req.TokensOut → 0 ≤ req.CostUSD → 0 ≤ req.LatencyMS →
      s.policy.KillSwitch = false →
      (s.runs.filter (fun r => r.ID == req.RunID.trimSpace)).head? = some run →
      run.Status ≠ "running" →
      recordPromptAttempt s req genID genEvtID now =
        (s, .error ⟨.failedPrecondition, "run is not in running state"⟩)) ∧
    (∀ (s s' : State), Step s s' → ∀ a ∈ s'.attempts,
      a ∈ s.attempts ∨ ∃ run ∈ s.runs, run.ID = a.RunID ∧ run.Status = "running") := by
  constructor
  · intro s req genID genEvtID now run hr hm ho hn ht1 ht2 hc hl hkill hhead hterm
    have hone : req.Outcome.trimSpace ≠ "" := by
      intro h
      rw [h] at ho
      simp [validAttemptOutcomes] at ho
    have h1 : ¬(req.RunID.trimSpace = "" ∨ req.Outcome.trimSpace = "" ∨
        req.Model.trimSpace = "") := by
      push_neg
      exact ⟨hr, hone, hm⟩
    have h2 : ¬(req.AttemptNumber ≤ 0) := by omega
    have h3 : ¬(req.Outcome.trimSpace ∉ validAttemptOutcomes) := fun hcon => hcon ho
    have h4 : ¬(req.TokensIn < 0 ∨ req.TokensOut < 0 ∨ req.CostUSD < 0 ∨
        req.LatencyMS < 0) := by
      push_neg
      exact ⟨ht1, ht2, hc, hl⟩
    simp only [recordPromptAttempt, if_neg h1, if_neg h2, if_neg h3, if_neg h4,
      hkill, recordPromptAttemptBody, hhead]
    simp [hterm]
  · intro s s' hstep
    cases hstep with
    | createTask req genID now =>
      intro a ha
      rw [(createTask_frame s req genID now).2.1] at ha
      exact Or.inl ha
    | updateTask req now =>
      intro a ha
      rw [(updateTask_frame s req now).2.1] at ha
      exact Or.inl ha
    | deleteTask id =>
      intro a ha
      rw [(deleteTask_frame s id).2.1] at ha
      exact Or.inl ha
    | deletePolicyCap id =>
      intro a ha
      rw [(deletePolicyCap_frame s id).2.1] at ha
      exact Or.inl ha
    | upsertPolicyCap req genID now =>
      intro a ha
      rw [(upsertPolicyCap_frame s req genID now).2.1] at ha
      exact Or.inl ha
    | recordRunEvent req genID now =>
      intro a ha
      rw [(recordRunEvent_frame s req genID now).2.1] at ha
      exact Or.inl ha
    | setPolicy req now =>
      intro a ha
      rw [(setPolicy_frame s req now).2.1] at ha
      exact Or.inl ha
    | startRun req genID now =>
      intro a ha
      rw [(startRun_frame s req genID now).1] at ha
      exact Or.inl ha
    | finishRun req now dur =>
      intro a ha
      rw [(finishRun_frame s req now dur).1] at ha
      exact Or.inl ha
    | recordPromptAttempt req genID genEvtID now =>
      exact recordPromptAttempt_attempts s req genID genEvtID now

/-- A stored run already in the terminal status `completed`. -/
def completedRunExample : AgentRun :=
  { ID := "r1", TaskID := "", Workflow := "w", AgentID := "a"
    PromptVersion := "", ModelPolicy := "", Status := "completed", MaxRetries := 0
    TotalAttempts := 0, SuccessAttempts := 0, FailedAttempts := 0
    TotalTokensIn := 0, TotalTokensOut := 0, TotalCostUSD := 0, DurationMS := 0
    LastError := "", StartedAt := "t0", FinishedAt := "t1" }

/-- A state holding exactly that terminal run. -/
def terminalStateExample : State :=
  { initialState with runs := [completedRunExample] }

/-- Witness for `terminal_runs_reject_attempts`: the terminal-run state
rejects a valid attempt with `FailedPrecondition` and nothing changes. -/
theorem terminal_runs_reject_attempts_witness :
    recordPromptAttempt terminalStateExample
      { RunID := "r1", AttemptNumber := 1, Model := "m", Outcome := "success" }
      "pat1" (fun _ => "evt") "t2" =
    (terminalStateExample,
      .error ⟨.failedPrecondition, "run is not in running state"⟩) := by
  exact terminal_runs_reject_attempts.1 terminalStateExample
    { RunID := "r1", AttemptNumber := 1, Model := "m", Outcome := "success" }
    "pat1" (fun _ => "evt") "t2" completedRunExample (by decide) (by decide)
    (by decide) (by decide) (by decide) (by decide) (by decide) (by decide)
    (by decide) (by decide) (by decide)

/-- **C3, counterexample.**  `FinishRun` does mutate a run that is already
terminal: finishing a `completed` run again with status `failed` rewrites
the stored run (so terminal runs are NOT immutable). -/
theorem finishRun_mutates_terminal_run :
    ((finishRun terminalStateExample
      { RunID := "r1", Status := "failed" } "t9" (some 5)).1.runs.map
        AgentRun.Status) = ["failed"] ∧
    terminalStateExample.runs.map AgentRun.Status = ["completed"] ∧
    (finishRun terminalStateExample
      { RunID := "r1", Status := "failed" } "t9" (some 5)).1 ≠
      terminalStateExample := by
  refine ⟨?_, ?_, ?_⟩ <;> decide

/-! ### C7: tag normalisation -/

theorem normalizeTagsAux_mem (tags : List String) :
    ∀ (out : List String) (t : String),
      t ∈ normalizeTagsAux tags out ↔
        t ∈ out ∨ (t ≠ "" ∧ ∃ raw ∈ tags, cleanTag raw = t) := by
  induction tags with
  | nil =>
    intro out t
    simp [normalizeTagsAux]
  | cons tag rest ih =>
    intro out t
    by_cases hc : cleanTag tag = "" ∨ cleanTag tag ∈ out
    · rw [normalizeTagsAux, if_pos hc, ih]
      constructor
      · rintro (h | ⟨hne, raw, hraw, hclean⟩)
        · exact Or.inl h
        · exact Or.inr ⟨hne, raw, List.mem_cons_of_mem tag hraw, hclean⟩
      · rintro (h | ⟨hne, raw, hraw, hclean⟩)
        · exact Or.inl h
        · rcases List.mem_cons.mp hraw with hraw | hraw
          · subst hraw
            rcases hc with hc | hc
            · exact absurd (hclean ▸ hc) hne
            · exact Or.inl (hclean ▸ hc)
          · exact Or.inr ⟨hne, raw, hraw, hclean⟩
    · push_neg at hc
      rw [normalizeTagsAux, if_neg (by push_neg; exact hc), ih]
      constructor
      · rintro (h | ⟨hne, raw, hraw, hclean⟩)
        · rcases List.mem_append.mp h with h | h
          · exact Or.inl h
          · rw [List.mem_singleton] at h
            exact Or.inr ⟨h ▸ hc.1, tag, List.mem_cons_self tag rest, h.symm⟩
        · exact Or.inr ⟨hne, raw, List.mem_cons_of_mem tag hraw, hclean⟩
      · rintro (h | ⟨hne, raw, hraw, hclean⟩)
        · exact Or.inl (List.mem_append.mpr (Or.inl h))
        · rcases List.mem_cons.mp hraw with hraw | hraw
          · subst hraw
            exact Or.inl (List.mem_append.mpr (Or.inr (by simp [hclean])))
          · exact Or.inr ⟨hne, raw, hraw, hclean⟩

theorem normalizeTagsAux_nodup (tags : List String) :
    ∀ out : List String, out.Nodup → (normalizeTagsAux tags out).Nodup := by
  induction tags with
  | nil => intro out h; exact h
  | cons tag rest ih =>
    intro out h
    by_cases hc : cleanTag tag = "" ∨ cleanTag tag ∈ out
    · rw [normalizeTagsAux, if_pos hc]
      exact ih out h
    · push_neg at hc
      rw [normalizeTagsAux, if_neg (by push_neg; exact hc)]
      exact ih (out ++ [cleanTag tag])
        (List.nodup_append.mpr ⟨h, List.nodup_singleton _,
          fun a ha hb => hc.2 (by rwa [List.mem_singleton.mp hb] at ha)⟩)

theorem normalizeTagsAux_sublist (tags : List String) :
    ∀ out : List String, ∃ suffix, normalizeTagsAux tags out = out ++ suffix ∧
      suffix.Sublist (tags.map cleanTag) := by
  induction tags with
  | nil => intro out; exact ⟨[], by simp [normalizeTagsAux]⟩
  | cons tag rest ih =>
    intro out
    by_cases hc : cleanTag tag = "" ∨ cleanTag tag ∈ out
    · rw [normalizeTagsAux, if_pos hc]
      obtain ⟨suffix, heq, hsub⟩ := ih out
      exact ⟨suffix, heq, hsub.trans (List.sublist_cons_self _ _)⟩
    · rw [normalizeTagsAux, if_neg hc]
      obtain ⟨suffix, heq, hsub⟩ := ih (out ++ [cleanTag tag])
      refine ⟨cleanTag tag :: suffix, by simpa [List.append_assoc] using heq, ?_⟩
      simpa using hsub.cons₂ (cleanTag tag)

theorem upsertTaskStore_self (tasks : List Task) (task : Task) :
    task ∈ upsertTaskStore tasks task := by
  induction tasks with
  | nil => simp [upsertTaskStore]
  | cons t rest ih =>
    simp only [upsertTaskStore]
    split
    · exact List.mem_cons_self task rest
    · exact List.mem_cons_of_mem t ih

/-- **C7** (amended).  The stored tag list of a task is the input list with
each tag whitespace-trimmed and lowercased, empty results and duplicates
removed; the surviving tags keep the input order of their first occurrence
(the list is a sublist of the cleaned input, NOT a lexicographically sorted
set), and a created task round-trips through `ListTasks` carrying exactly
that normalised list. -/
theorem normalizeTags_round_trip :
    (∀ (tags : List String) (t : String),
      t ∈ normalizeTags tags ↔ (t ≠ "" ∧ ∃ raw ∈ tags, cleanTag raw = t)) ∧
    (∀ tags : List String, (normalizeTags tags).Nodup) ∧
    (∀ tags : List String, (normalizeTags tags).Sublist (tags.map cleanTag)) ∧
    (∀ (s : State) (req : CreateTaskRequest) (genID now : String)
        (s' : State) (task : Task),
      createTask s req genID now = (s', .ok task) →
      task.Tags = normalizeTags (req.Tags.getD []) ∧
      task ∈ listTasks s') := by
  refine ⟨?_, ?_, ?_, ?_⟩
  · intro tags t
    rw [normalizeTags, normalizeTagsAux_mem]
    simp
  · intro tags
    exact normalizeTagsAux_nodup tags [] List.nodup_nil
  · intro tags
    obtain ⟨suffix, heq, hsub⟩ := normalizeTagsAux_sublist tags []
    rw [normalizeTags, heq]
    simpa using hsub
  · intro s req genID now s' task h
    simp only [createTask] at h
    repeat' split at h
    all_goals try (exact Except.noConfusion (congrArg Prod.snd h))
    all_goals
      rw [Prod.mk.injEq] at h
      obtain ⟨hs, ht⟩ := h
      rw [Except.ok.injEq] at ht
      subst hs
      subst ht
      refine ⟨rfl, ?_⟩
      rw [listTasks]
      rw [(List.perm_insertionSort taskBefore _).mem_iff]
      exact upsertTaskStore_self s.tasks _

/-- Witness for `normalizeTags_round_trip` at a concrete input: the tags
`["  B ", "a", "b", "", "a"]` normalise to `["b", "a"]` — trimmed,
lowercased, deduplicated, empty dropped, first-occurrence order kept. -/
theorem normalizeTags_round_trip_witness :
    ∃ task, (createTask initialState
        { Title := "t", Tags := some ["  B ", "a", "b", "", "a"] }
        "task1" "t1").2 = .ok task ∧
      task.Tags = normalizeTags ["  B ", "a", "b", "", "a"] ∧
      task.Tags = ["b", "a"] := by
  have h := normalizeTags_round_trip.2.2.2 initialState
    { Title := "t", Tags := some ["  B ", "a", "b", "", "a"] } "task1" "t1"
    (createTask initialState
      { Title := "t", Tags := some ["  B ", "a", "b", "", "a"] } "task1" "t1").1
    { ID := "task1", Title := "t", Details := "", Status := "todo"
      Tags := ["b", "a"], CreatedAt := "t1", UpdatedAt := "t1" } (by decide)
  exact ⟨_, by decide, h.1, by decide⟩

/-- **C7, counterexample.**  Tags round-trip in first-occurrence input
order, not lexicographic order: input `["b", "a"]` is stored and listed as
`["b", "a"]` (insertion order preserved), not `["a", "b"]`. -/
theorem tags_keep_insertion_order :
    ((listTasks (createTask initialState { Title := "t", Tags := some ["b", "a"] }
        "task1" "t1").1).map Task.Tags) = [["b", "a"]] ∧
    (["b", "a"] : List String) ≠ ["a", "b"] := by
  refine ⟨?_, ?_⟩ <;> decide

/-! ### C10: UpsertPolicyCap frame behaviour -/

/-- A stored cap with a non-empty provider selector. -/
def capExample : PolicyCap :=
  { PolicyCap.zero with
      ID := "c"
      Name := "n"
      ProviderType := "api"
      Provider := "x"
      Model := "m"
      IsActive := true
      Priority := 5 }

/-- A state holding one cap with a non-empty provider selector. -/
def capStateExample : State :=
  { initialState with policyCaps := [capExample] }

/-- **C10** (amended).  On upsert over an existing id: string fields sent
as the empty string and omitted numeric/boolean pointers leave the stored
value unchanged, and a cap created under a fresh id defaults to
`is_active = true` and `dry_run = false` when those fields are omitted;
HOWEVER a whitespace-only string passes the non-empty guard and stores its
trimmed value, so a non-empty selector CAN be reset to the empty wildcard
by sending blanks. -/
theorem upsertPolicyCap_preserves_omitted (s : State)
    (req : UpsertPolicyCapRequest) (genID now : String) (cap' : PolicyCap)
    (h : (upsertPolicyCap s req genID now).2 = .ok cap') :
    (∀ old, s.policyCaps.find? (fun item => item.ID ==
        (if req.ID.trimSpace = "" then genID else req.ID.trimSpace)) = some old →
      (req.Name = "" → cap'.Name = old.Name) ∧
      (req.ProviderType = "" → cap'.ProviderType = old.ProviderType) ∧
      (req.Provider = "" → cap'.Provider = old.Provider) ∧
      (req.Model = "" → cap'.Model = old.Model) ∧
      (req.MaxCostPerRunUSD = none → cap'.MaxCostPerRunUSD = old.MaxCostPerRunUSD) ∧
      (req.MaxAttemptsPerRun = none → cap'.MaxAttemptsPerRun = old.MaxAttemptsPerRun) ∧
      (req.MaxTokensPerRun = none → cap'.MaxTokensPerRun = old.MaxTokensPerRun) ∧
      (req.MaxCostPerAttemptUSD = none →
        cap'.MaxCostPerAttemptUSD = old.MaxCostPerAttemptUSD) ∧
      (req.MaxTokensPerAttempt = none →
        cap'.MaxTokensPerAttempt = old.MaxTokensPerAttempt) ∧
      (req.MaxLatencyPerAttemptMS = none →
        cap'.MaxLatencyPerAttemptMS = old.MaxLatencyPerAttemptMS) ∧
      (req.Priority = none → cap'.Priority = old.Priority) ∧
      (req.DryRun = none → cap'.DryRun = old.DryRun) ∧
      (req.IsActive = none → cap'.IsActive = old.IsActive) ∧
      (req.Provider ≠ "" → cap'.Provider = req.Provider.trimSpace)) ∧
    (s.policyCaps.find? (fun item => item.ID ==
        (if req.ID.trimSpace = "" then genID else req.ID.trimSpace)) = none →
      (req.DryRun = none → cap'.DryRun = false) ∧
      (req.IsActive = none → cap'.IsActive = true)) := by
  simp only [upsertPolicyCap] at h
  split at h
  · cases h
  · split at h
    · cases h
    · split at h
      · cases h
      · split at h
        · cases h
        · split at h
          · cases h
          · split at h
            · cases h
            · split at h
              · cases h
              · simp only [Except.ok.injEq] at h
                subst h
                constructor
                · intro old hfind
                  rw [hfind]
                  refine ⟨?_, ?_, ?_, ?_, ?_, ?_, ?_, ?_, ?_, ?_, ?_, ?_, ?_, ?_⟩ <;>
                    intro hf <;> simp [applyCapOverlays, hf]
                · intro hfind
                  rw [hfind]
                  refine ⟨?_, ?_⟩ <;> intro hf <;> simp [applyCapOverlays, hf]

/-- Witness for `upsertPolicyCap_preserves_omitted`: an upsert over the
stored cap `c` that sends every field empty/omitted leaves name, all
selectors, all limits, priority, dry_run and is_active unchanged. -/
theorem upsertPolicyCap_preserves_omitted_witness :
    ∃ cap', (upsertPolicyCap capStateExample { ID := "c" } "gen" "t2").2 = .ok cap' ∧
      cap'.Name = "n" ∧ cap'.Provider = "x" ∧ cap'.ProviderType = "api" ∧
      cap'.Model = "m" ∧ cap'.Priority = 5 ∧ cap'.IsActive = true ∧
      cap'.DryRun = false := by
  obtain ⟨h1, _⟩ := upsertPolicyCap_preserves_omitted capStateExample
    { ID := "c" } "gen" "t2"
    (applyCapOverlays { ID := "c" } capExample "t2")
    (by decide)
  obtain ⟨ha, hb, hc, hd, _, _, _, _, _, _, hp, hdr, hia, _⟩ := h1 capExample (by decide)
  exact ⟨_, by decide, ha rfl, hc rfl, hb rfl, hd rfl, hp rfl, hia rfl, hdr rfl⟩

/-- **C10, counterexample.**  A whitespace-only `provider` field resets the
stored non-empty selector `"x"` to the empty wildcard. -/
theorem upsertPolicyCap_whitespace_resets_selector :
    ((upsertPolicyCap capStateExample { ID := "c", Provider := " " }
        "gen" "t2").1.policyCaps.map PolicyCap.Provider) = [""] ∧
    capStateExample.policyCaps.map PolicyCap.Provider = ["x"] := by
  refine ⟨?_, ?_⟩ <;> decide

/-! ### C2: dry-run cap violations -/

theorem runCapChecks_events_extend (runID : String) (cap : PolicyCap)
    (genEvtID : Nat → String) (now : String) :
    ∀ (checks : List CapCheckSpec) (i : Nat) (s : State),
      ∃ evs, (runCapChecks runID cap genEvtID now i checks s).1.runEvents =
        s.runEvents ++ evs := by
  intro checks
  induction checks with
  | nil => intro i s; exact ⟨[], by simp [runCapChecks]⟩
  | cons c rest ih =>
    intro i s
    by_cases hv : c.violated
    · by_cases hd : c.dryGuard
      · obtain ⟨evs, hevs⟩ := ih (i + 1)
          { s with runEvents := s.runEvents ++
              [dryRunViolationEvent runID cap c.dryMessage (genEvtID i) now] }
        exact ⟨dryRunViolationEvent runID cap c.dryMessage (genEvtID i) now :: evs,
          by simpa [runCapChecks, hv, hd, List.append_assoc] using hevs⟩
      · exact ⟨[], by simp [runCapChecks, hv, hd]⟩
    · simpa [runCapChecks, hv] using ih (i + 1) s

/-- When every violated check is in dry-run mode, the cascade reports no
error and logs one `policy_cap_violation_dry_run` event per violated
check. -/
theorem runCapChecks_all_dry (runID : String) (cap : PolicyCap)
    (genEvtID : Nat → String) (now : String) :
    ∀ (checks : List CapCheckSpec) (i : Nat) (s : State),
      (∀ c ∈ checks, c.violated = true → c.dryGuard = true) →
      (runCapChecks runID cap genEvtID now i checks s).2 = none ∧
      ∀ c ∈ checks, c.violated = true →
        ∃ eid, dryRunViolationEvent runID cap c.dryMessage eid now ∈
          (runCapChecks runID cap genEvtID now i checks s).1.runEvents := by
  intro checks
  induction checks with
  | nil =>
    intro i s _
    exact ⟨rfl, by intro c hc; cases hc⟩
  | cons c rest ih =>
    intro i s hdry
    by_cases hv : c.violated
    · have hd := hdry c (List.mem_cons_self c rest) hv
      have ihs := ih (i + 1)
        { s with runEvents := s.runEvents ++
            [dryRunViolationEvent runID cap c.dryMessage (genEvtID i) now] }
        (fun c' hc' => hdry c' (List.mem_cons_of_mem c hc'))
      constructor
      · simpa [runCapChecks, hv, hd] using ihs.1
      · intro c' hc' hv'
        rcases List.mem_cons.mp hc' with hc' | hc'
        · subst hc'
          refine ⟨genEvtID i, ?_⟩
          obtain ⟨evs, hevs⟩ := runCapChecks_events_extend runID cap genEvtID now
            rest (i + 1)
            { s with runEvents := s.runEvents ++
                [dryRunViolationEvent runID cap c'.dryMessage (genEvtID i) now] }
          rw [runCapChecks, if_pos hv, if_pos hd, hevs]
          simp
        · obtain ⟨eid, hmem⟩ := ihs.2 c' hc' hv'
          refine ⟨eid, ?_⟩
          rw [runCapChecks, if_pos hv, if_pos hd]
          exact hmem
    · have ihs := ih (i + 1) s (fun c' hc' => hdry c' (List.mem_cons_of_mem c hc'))
      constructor
      · simpa [runCapChecks, hv] using ihs.1
      · intro c' hc' hv'
        rcases List.mem_cons.mp hc' with hc' | hc'
        · subst hc'
          exact absurd hv' (by simpa using hv)
        · obtain ⟨eid, hmem⟩ := ihs.2 c' hc' hv'
          refine ⟨eid, ?_⟩
          rw [runCapChecks, if_neg hv]
          exact hmem

/-- The first violated check that is not in dry-run mode aborts the cascade
with `ResourceExhausted` and that check's message. -/
theorem runCapChecks_first_bad (runID : String) (cap : PolicyCap)
    (genEvtID : Nat → String) (now : String) :
    ∀ (pre : List CapCheckSpec) (bad : CapCheckSpec) (post : List CapCheckSpec)
      (i : Nat) (s : State),
      (∀ c ∈ pre, c.violated = true → c.dryGuard = true) →
      bad.violated = true → bad.dryGuard = false →
      (runCapChecks runID cap genEvtID now i (pre ++ bad :: post) s).2 =
        some ⟨.resourceExhausted, bad.errMessage⟩ := by
  intro pre
  induction pre with
  | nil =>
    intro bad post i s _ hv hd
    simp [runCapChecks, hv, hd]
  | cons c rest ih =>
    intro bad post i s hdry hv hd
    by_cases hcv : c.violated
    · have hcd := hdry c (List.mem_cons_self c rest) hcv
      rw [List.cons_append, runCapChecks, if_pos hcv, if_pos hcd]
      exact ih bad post (i + 1) _ (fun c' hc' => hdry c' (List.mem_cons_of_mem c hc'))
        hv hd
    · rw [List.cons_append, runCapChecks, if_neg hcv]
      exact ih bad post (i + 1) s (fun c' hc' => hdry c' (List.mem_cons_of_mem c hc'))
        hv hd

/-- The fields of a logged dry-run violation event: type
`policy_cap_violation_dry_run`, level `warn`, and a JSON payload carrying
the selected cap's id, name, selectors, priority and dry_run flag. -/
theorem dryRunViolationEvent_fields (runID : String) (cap : PolicyCap)
    (message eid now : String) :
    (dryRunViolationEvent runID cap message eid now).EventType =
      "policy_cap_violation_dry_run" ∧
    (dryRunViolationEvent runID cap message eid now).Level = "warn" ∧
    (dryRunViolationEvent runID cap message eid now).RunID = runID ∧
    (dryRunViolationEvent runID cap message eid now).DataJSON =
      .obj (dryRunViolationPayload cap) ∧
    (dryRunViolationPayload cap).lookup "cap_id" = some (.str cap.ID) ∧
    (dryRunViolationPayload cap).lookup "cap_name" = some (.str cap.Name) ∧
    (dryRunViolationPayload cap).lookup "provider_type" = some (.str cap.ProviderType) ∧
    (dryRunViolationPayload cap).lookup "provider" = some (.str cap.Provider) ∧
    (dryRunViolationPayload cap).lookup "model" = some (.str cap.Model) ∧
    (dryRunViolationPayload cap).lookup "priority" = some (.int cap.Priority) ∧
    (dryRunViolationPayload cap).lookup "dry_run" = some (.bool cap.DryRun) := by
  refine ⟨rfl, rfl, rfl, rfl, ?_, ?_, ?_, ?_, ?_, ?_, ?_⟩ <;>
    simp [dryRunViolationPayload, List.lookup]

/-- **C2** (amended).  For `RecordPromptAttempt` past validation, the
kill-switch gate and the running-run lookup, with `cap`/`limits` resolved
as in the code: (A) if every violated cap check satisfies its dry-run
guard (the selected cap exists, is in dry-run, and — for the run-level and
latency limits — itself supplied the violated limit), the attempt is
persisted, no error is returned, and one `policy_cap_violation_dry_run` /
`warn` RunEvent per violated check is inserted whose payload carries the
cap's id, name, selectors, priority and dry_run flag; (B) otherwise the
first violated check failing its guard aborts with `ResourceExhausted` and
a message naming `limits.Source` — which is `policy-cap:<id>` whenever ANY
cap was selected (even if the violated limit was inherited from the global
policy) and `global-policy` otherwise — and the attempt is not persisted. -/
theorem recordPromptAttempt_dry_run (s : State) (req : RecordPromptAttemptRequest)
    (runID providerType provider model outcome : String)
    (genID : String) (genEvtID : Nat → String) (now : String)
    (run : AgentRun)
    (hhead : (s.runs.filter (fun r => r.ID == runID)).head? = some run)
    (hrun : run.Status = "running") :
    let selected := selectPolicyCap s.policyCaps providerType provider model
    let hasCap := selected.isSome
    let cap := selected.getD PolicyCap.zero
    let limits := resolveEffectiveLimits s.policy cap hasCap
    let existing := s.attempts.filter (fun a => a.RunID == runID)
    let checks := attemptCapChecks req limits cap hasCap existing.length
      ((existing.map (fun a => a.CostUSD)).sum)
      ((existing.map (fun a => a.TokensIn + a.TokensOut)).sum)
    let body := recordPromptAttemptBody s req runID providerType provider model
      outcome genID genEvtID now
    ((∀ c ∈ checks, c.violated = true → c.dryGuard = true) →
      body.2 = .ok (buildAttempt req runID providerType provider model outcome
        genID now) ∧
      body.1.attempts = s.attempts ++ [buildAttempt req runID providerType provider
        model outcome genID now] ∧
      (∀ c ∈ checks, c.violated = true →
        ∃ eid, dryRunViolationEvent runID cap c.dryMessage eid now ∈
          body.1.runEvents)) ∧
    (∀ (pre : List CapCheckSpec) (bad : CapCheckSpec) (post : List CapCheckSpec),
      checks = pre ++ bad :: post →
      (∀ c ∈ pre, c.violated = true → c.dryGuard = true) →
      bad.violated = true → bad.dryGuard = false →
      body.2 = .error ⟨.resourceExhausted, bad.errMessage⟩ ∧
      body.1.attempts = s.attempts) ∧
    (hasCap = true → limits.Source = "policy-cap:" ++ cap.ID) ∧
    (hasCap = false → limits.Source = "global-policy") := by
  intro selected hasCap cap limits existing checks body
  have hbody : body = afterChecks (runCapChecks runID cap genEvtID now 0 checks s)
      (buildAttempt req runID providerType provider model outcome genID now) := by
    show recordPromptAttemptBody s req runID providerType provider model outcome
      genID genEvtID now = _
    rw [recordPromptAttemptBody]
    simp only [hhead]
    rw [if_neg (by simp [hrun])]
  refine ⟨?_, ?_, ?_, ?_⟩
  · intro hdry
    obtain ⟨hres, hevents⟩ := runCapChecks_all_dry runID cap genEvtID now checks 0 s hdry
    rcases hrc : runCapChecks runID cap genEvtID now 0 checks s with ⟨s2, res⟩
    rw [hrc] at hres
    simp only at hres
    subst hres
    obtain ⟨_, _, hatt, _, _⟩ := runCapChecks_fields hrc
    rw [hbody, hrc]
    refine ⟨rfl, ?_, ?_⟩
    · show s2.attempts ++ _ = s.attempts ++ _
      rw [hatt]
    · intro c hc hv
      obtain ⟨eid, hmem⟩ := hevents c hc hv
      rw [hrc] at hmem
      exact ⟨eid, hmem⟩
  · intro pre bad post hsplit hpre hv hd
    have hres := runCapChecks_first_bad runID cap genEvtID now pre bad post 0 s hpre hv hd
    rw [← hsplit] at hres
    rcases hrc : runCapChecks runID cap genEvtID now 0 checks s with ⟨s2, res⟩
    rw [hrc] at hres
    simp only at hres
    subst hres
    obtain ⟨_, _, hatt, _, _⟩ := runCapChecks_fields hrc
    rw [hbody, hrc]
    exact ⟨rfl, hatt⟩
  · intro hcap
    show (resolveEffectiveLimits s.policy cap hasCap).Source = _
    rw [resolveEffectiveLimits, if_neg (by simp [hcap])]
  · intro hcap
    show (resolveEffectiveLimits s.policy cap hasCap).Source = _
    rw [resolveEffectiveLimits, if_pos (by simp [hcap])]

/-- A running run for exercising the dry-run cascade. -/
def runningRunDry : AgentRun :=
  { ID := "r1", TaskID := "", Workflow := "w", AgentID := "a"
    PromptVersion := "", ModelPolicy := "", Status := "running", MaxRetries := 0
    TotalAttempts := 0, SuccessAttempts := 0, FailedAttempts := 0
    TotalTokensIn := 0, TotalTokensOut := 0, TotalCostUSD := 0, DurationMS := 0
    LastError := "", StartedAt := "t0", FinishedAt := "" }

/-- An active dry-run cap capping attempt latency at 10ms for model `m`. -/
def dryCapExample : PolicyCap :=
  { PolicyCap.zero with ID := "c", Name := "n", Model := "m"
                        MaxLatencyPerAttemptMS := 10, IsActive := true, DryRun := true }

/-- State with the running run and the dry-run latency cap. -/
def dryCapState : State :=
  { initialState with runs := [runningRunDry], policyCaps := [dryCapExample] }

/-- A request whose 20ms latency violates the cap's 10ms limit. -/
def dryReqExample : RecordPromptAttemptRequest :=
  { RunID := "r1", AttemptNumber := 1, Model := "m", Outcome := "success"
    LatencyMS := 20 }

/-- Witness: against the dry-run latency cap, the over-latency attempt is
accepted and persisted and a dry-run violation event is logged. -/
theorem recordPromptAttempt_dry_run_witness :
    (recordPromptAttemptBody dryCapState dryReqExample "r1" "api" "" "m" "success"
        "pat1" (fun _ => "e0") "t2").2 =
      .ok (buildAttempt dryReqExample "r1" "api" "" "m" "success" "pat1" "t2") ∧
    (recordPromptAttemptBody dryCapState dryReqExample "r1" "api" "" "m" "success"
        "pat1" (fun _ => "e0") "t2").1.attempts =
      dryCapState.attempts ++
        [buildAttempt dryReqExample "r1" "api" "" "m" "success" "pat1" "t2"] ∧
    ∃ eid, dryRunViolationEvent "r1" dryCapExample
        "attempt latency exceeds cap limit" eid "t2" ∈
      (recordPromptAttemptBody dryCapState dryReqExample "r1" "api" "" "m" "success"
        "pat1" (fun _ => "e0") "t2").1.runEvents := by
  have h := recordPromptAttempt_dry_run dryCapState dryReqExample "r1" "api" "" "m"
    "success" "pat1" (fun _ => "e0") "t2" runningRunDry (by decide) rfl
  obtain ⟨hdry, _, _, _⟩ := h
  obtain ⟨hok, hatt, hev⟩ := hdry (by decide)
  refine ⟨hok, hatt, ?_⟩
  exact hev { violated := true, dryGuard := true
              dryMessage := "attempt latency exceeds cap limit"
              errMessage := "attempt latency exceeds policy cap (policy-cap:c)" }
    (by decide) (by decide)

/-- A cap selected for model `m` that sets no limit of its own and is in
dry-run mode. -/
def sourceCapExample : PolicyCap :=
  { PolicyCap.zero with ID := "c", Model := "m", IsActive := true, DryRun := true }

/-- An already-stored attempt of run `r1`. -/
def priorAttemptExample : PromptAttempt :=
  { ID := "pat0", RunID := "r1", AttemptNumber := 1, Workflow := "w", AgentID := "a"
    ProviderType := "api", Provider := "", Model := "m", PromptVersion := ""
    PromptHash := "", Outcome := "success", ErrorType := "", ErrorMessage := ""
    TokensIn := 0, TokensOut := 0, CostUSD := 0, LatencyMS := 0, QualityScore := 0
    CreatedAt := "t1" }

/-- State with a global max-attempts limit of 1, one prior attempt, and the
limitless dry-run cap. -/
def sourceCapState : State :=
  { initialState with
      policy := { DefaultPolicy with MaxAttemptsPerRun := 1 }
      runs := [runningRunDry]
      attempts := [priorAttemptExample]
      policyCaps := [sourceCapExample] }

/-- **C2, counterexample.**  The max-attempts limit 1 was configured on the
global policy only (the selected cap leaves it at 0), and the selected cap
is in dry-run mode, yet `RecordPromptAttempt` fails with a message naming
`policy-cap:c` as the source — not `global-policy`, the actual origin of
the violated limit — and the violation is not treated as dry-run. -/
theorem recordPromptAttempt_source_mislabeled :
    sourceCapExample.MaxAttemptsPerRun = 0 ∧
    sourceCapState.policy.MaxAttemptsPerRun = 1 ∧
    sourceCapExample.DryRun = true ∧
    selectPolicyCap sourceCapState.policyCaps "api" "" "m" = some sourceCapExample ∧
    (recordPromptAttempt sourceCapState
        { RunID := "r1", AttemptNumber := 2, Model := "m", Outcome := "success" }
        "pat1" (fun _ => "e0") "t2").2 =
      .error ⟨.resourceExhausted, "run exceeds max attempts cap (policy-cap:c)"⟩ := by
  refine ⟨rfl, rfl, rfl, by decide, by decide⟩

/-! ### C8: Leaderboard -/

/-- `service.LeaderboardRequest` (only the fields `Leaderboard` reads). -/
structure LeaderboardRequest where
  Workflow : String := ""
  Model : String := ""
  PromptVersion : String := ""
  WindowDays : Int := 0
  Limit : Int := 0
deriving DecidableEq, Repr

/-- `domain.LeaderboardEntry` (`float64` modelled in ℚ: the formulas use
only field arithmetic, reproduced exactly). -/
structure LeaderboardEntry where
  Workflow : String
  PromptVersion : String
  Model : String
  Attempts : Int
  SuccessAttempts : Int
  FailedAttempts : Int
  SuccessRate : ℚ
  AverageCostUSD : ℚ
  AverageLatencyMS : ℚ
  Score : ℚ
deriving DecidableEq, Repr

/-- The local `aggregate` struct of `Leaderboard`. -/
structure LbAggregate where
  workflow : String
  promptVersion : String
  model : String
  attempts : Int
  successes : Int
  failures : Int
  totalCost : ℚ
  totalLatency : Int
deriving DecidableEq, Repr

/-- The grouping key: `strings.Join([]string{workflow, promptVersion, model}, "|")`. -/
def lbKey (w pv m : String) : String := w ++ "|" ++ pv ++ "|" ++ m

/-- The grouping key of an attempt. -/
def lbKeyOf (a : PromptAttempt) : String := lbKey a.Workflow a.PromptVersion a.Model

/-- The zero aggregate created on first sight of a key. -/
def lbAggInit (a : PromptAttempt) : LbAggregate :=
  { workflow := a.Workflow, promptVersion := a.PromptVersion, model := a.Model
    attempts := 0, successes := 0, failures := 0, totalCost := 0, totalLatency := 0 }

/-- The per-attempt increments applied to an aggregate. -/
def lbAggAdd (e : LbAggregate) (a : PromptAttempt) : LbAggregate :=
  { e with attempts := e.attempts + 1
           totalCost := e.totalCost + a.CostUSD
           totalLatency := e.totalLatency + a.LatencyMS
           successes := if a.Outcome == "success" then e.successes + 1 else e.successes
           failures := if a.Outcome == "success" then e.failures else e.failures + 1 }

/-- Insert-or-update at key `k`: the Go map write, on an association list
that fixes first-occurrence order (the Go map iterates in unspecified
order; every fully tied order survives the later sort, and this model
refines the nondeterminism to one concrete order). -/
def lbUpdate (k : String) (init : LbAggregate) (a : PromptAttempt) :
    List (String × LbAggregate) → List (String × LbAggregate)
  | [] => [(k, lbAggAdd init a)]
  | (k', v) :: rest =>
    if k' == k then (k', lbAggAdd v a) :: rest
    else (k', v) :: lbUpdate k init a rest

/-- One iteration of the grouping loop. -/
def lbInsert (g : List (String × LbAggregate)) (a : PromptAttempt) :
    List (String × LbAggregate) :=
  lbUpdate (lbKeyOf a) (lbAggInit a) a g

/-- The grouping loop of `Leaderboard`. -/
def lbGroup (attempts : List PromptAttempt) : List (String × LbAggregate) :=
  attempts.foldl lbInsert []

/-- Association-list lookup for the grouping map. -/
def lbLookup (k : String) : List (String × LbAggregate) → Option LbAggregate
  | [] => none
  | (k', v) :: rest => if k' == k then some v else lbLookup k rest

/-- The entry built from one aggregate (the `continue` on zero attempts is
in `lbEntries`). -/
def lbEntry (e : LbAggregate) : LeaderboardEntry :=
  let successRate : ℚ := (e.successes : ℚ) / (e.attempts : ℚ)
  let avgCost : ℚ := e.totalCost / (e.attempts : ℚ)
  let avgLatency : ℚ := (e.totalLatency : ℚ) / (e.attempts : ℚ)
  { Workflow := e.workflow, PromptVersion := e.promptVersion, Model := e.model
    Attempts := e.attempts, SuccessAttempts := e.successes
    FailedAttempts := e.failures, SuccessRate := successRate
    AverageCostUSD := avgCost, AverageLatencyMS := avgLatency
    Score := successRate * 100 - avgCost * 100 - avgLatency / 1000 }

/-- The `slices.SortFunc` comparator as a relation: `a` sorts no later
than `b` (score descending, then success rate descending, then prompt
version ascending). -/
def lbBefore (a b : LeaderboardEntry) : Prop :=
  b.Score < a.Score ∨ (a.Score = b.Score ∧
    (b.SuccessRate < a.SuccessRate ∨ (a.SuccessRate = b.SuccessRate ∧
      a.PromptVersion ≤ b.PromptVersion)))

instance (a b : LeaderboardEntry) : Decidable (lbBefore a b) := by
  unfold lbBefore; infer_instance

/-- The unsorted entry list: one entry per group, in first-occurrence
order, skipping empty aggregates as the Go loop does. -/
def lbEntries (attempts : List PromptAttempt) : List LeaderboardEntry :=
  ((((lbGroup attempts).map Prod.snd).filter (fun e => !(e.attempts == 0))).map lbEntry)

/-- Sort and truncate, as at the tail of `Leaderboard`. -/
def leaderboardOf (attempts : List PromptAttempt) (limit : Int) :
    List LeaderboardEntry :=
  let sorted := (lbEntries attempts).insertionSort lbBefore
  if 0 < limit ∧ limit < (sorted.length : Int) then sorted.take limit.toNat
  else sorted

/-- The attempt filter of `ListPromptAttemptsFiltered` restricted to the
fields `Leaderboard` sets (file_store.go keeps an attempt when every
non-empty filter field matches, and drops it when `CreatedAt ≤ CreatedAfter`). -/
def lbFilter (workflow model promptVersion createdAfter : String)
    (a : PromptAttempt) : Bool :=
  (workflow == "" || a.Workflow == workflow) &&
  (model == "" || a.Model == model) &&
  (promptVersion == "" || a.PromptVersion == promptVersion) &&
  (createdAfter == "" || createdAfter < a.CreatedAt)

/-- `HubService.Leaderboard`.  `createdAfter` stands for the RFC3339
rendering of `time.Now() − WindowDays·24h`, used only when
`WindowDays > 0`. -/
def leaderboard (s : State) (request : LeaderboardRequest)
    (createdAfter : String) : Except AppError (List LeaderboardEntry) :=
  if request.Limit < 0 then .error ⟨.invalidArgument, "limit must be non-negative"⟩
  else if request.WindowDays < 0 then
    .error ⟨.invalidArgument, "window_days must be non-negative"⟩
  else
    let atts := s.attempts.filter (lbFilter request.Workflow.trimSpace
      request.Model.trimSpace request.PromptVersion.trimSpace
      (if 0 < request.WindowDays then createdAfter else ""))
    .ok (leaderboardOf atts request.Limit)

theorem lbUpdate_lookup_self (k : String) (init : LbAggregate) (a : PromptAttempt) :
    ∀ (g : List (String × LbAggregate)),
      lbLookup k (lbUpdate k init a g) =
        some (lbAggAdd ((lbLookup k g).getD init) a) := by
  intro g
  induction g with
  | nil => simp [lbUpdate, lbLookup]
  | cons kv rest ih =>
    rcases kv with ⟨k0, v⟩
    by_cases h : (k0 == k) = true
    · simp [lbUpdate, lbLookup, h]
    · simp only [lbUpdate, lbLookup, h, if_neg, Bool.not_eq_true] at ih ⊢
      simpa [h] using ih

theorem lbUpdate_lookup_other (k k' : String) (init : LbAggregate)
    (a : PromptAttempt) (h : k' ≠ k) :
    ∀ (g : List (String × LbAggregate)),
      lbLookup k' (lbUpdate k init a g) = lbLookup k' g := by
  intro g
  induction g with
  | nil => simp [lbUpdate, lbLookup]; exact fun hkk => h hkk.symm
  | cons kv rest ih =>
    rcases kv with ⟨k0, v⟩
    by_cases h0 : (k0 == k) = true
    · have hk0 : k0 = k := by simpa using h0
      have : (k0 == k') = false := by
        subst hk0; exact beq_eq_false_iff_ne.mpr (fun hk => h hk.symm)
      simp [lbUpdate, lbLookup, h0, this]
    · simp [lbUpdate, lbLookup, h0, ih]

theorem lbUpdate_mem_keys (k : String) (init : LbAggregate) (a : PromptAttempt) :
    ∀ (g : List (String × LbAggregate)) (k' : String),
      k' ∈ (lbUpdate k init a g).map Prod.fst → k' ∈ g.map Prod.fst ∨ k' = k := by
  intro g
  induction g with
  | nil => intro k' h; simp [lbUpdate] at h; exact Or.inr h
  | cons kv rest ih =>
    rcases kv with ⟨k0, v⟩
    intro k' h
    by_cases h0 : (k0 == k) = true
    · simp only [lbUpdate, h0, if_pos, List.map_cons, List.mem_cons] at h
      exact Or.inl (by simpa using h)
    · simp only [lbUpdate, h0, if_neg, Bool.not_eq_true, List.map_cons,
        List.mem_cons] at h
      rcases h with h | h
      · exact Or.inl (by simp [h])
      · rcases ih k' h with h' | h'
        · exact Or.inl (by simp [List.mem_cons]; exact Or.inr (by simpa using h'))
        · exact Or.inr h'

theorem lbUpdate_keys_nodup (k : String) (init : LbAggregate) (a : PromptAttempt) :
    ∀ (g : List (String × LbAggregate)), (g.map Prod.fst).Nodup →
      ((lbUpdate k init a g).map Prod.fst).Nodup := by
  intro g
  induction g with
  | nil => intro _; simp [lbUpdate]
  | cons kv rest ih =>
    rcases kv with ⟨k0, v⟩
    intro h
    rw [List.map_cons, List.nodup_cons] at h
    by_cases h0 : (k0 == k) = true
    · simpa [lbUpdate, h0, List.nodup_cons] using h
    · rw [show lbUpdate k init a ((k0, v) :: rest) =
        (k0, v) :: lbUpdate k init a rest by simp [lbUpdate, h0]]
      rw [List.map_cons, List.nodup_cons]
      refine ⟨fun hmem => ?_, ih h.2⟩
      rcases lbUpdate_mem_keys k init a rest k0 hmem with h' | h'
      · exact h.1 h'
      · exact absurd (beq_iff_eq.mpr h') (by simpa using h0)

theorem lbFoldl_keys_nodup :
    ∀ (attempts : List PromptAttempt) (g : List (String × LbAggregate)),
      (g.map Prod.fst).Nodup → ((attempts.foldl lbInsert g).map Prod.fst).Nodup := by
  intro attempts
  induction attempts with
  | nil => intro g h; simpa using h
  | cons a rest ih =>
    intro g h
    exact ih (lbInsert g a) (lbUpdate_keys_nodup _ _ _ g h)

theorem lbLookup_of_mem :
    ∀ (g : List (String × LbAggregate)), (g.map Prod.fst).Nodup →
      ∀ kv ∈ g, lbLookup kv.1 g = some kv.2 := by
  intro g
  induction g with
  | nil => intro _ kv h; cases h
  | cons kv0 rest ih =>
    rcases kv0 with ⟨k0, v0⟩
    intro h kv hkv
    rw [List.map_cons, List.nodup_cons] at h
    rcases List.mem_cons.mp hkv with h' | h'
    · subst h'; simp [lbLookup]
    · have hne : (k0 == kv.1) = false := by
        refine beq_eq_false_iff_ne.mpr (fun he => h.1 ?_)
        exact he ▸ List.mem_map.mpr ⟨kv, h', rfl⟩
      simp only [lbLookup, hne, Bool.false_eq_true, if_neg, not_false_iff]
      exact ih h.2 kv h'

theorem lbFoldl_lookup_some (k : String) :
    ∀ (attempts : List PromptAttempt) (g : List (String × LbAggregate))
      (v : LbAggregate), lbLookup k g = some v →
      lbLookup k (attempts.foldl lbInsert g) =
        some ((attempts.filter (fun x => lbKeyOf x == k)).foldl lbAggAdd v) := by
  intro attempts
  induction attempts with
  | nil => intro g v h; simpa using h
  | cons a rest ih =>
    intro g v h
    by_cases hk : (lbKeyOf a == k) = true
    · have hkeq : lbKeyOf a = k := by simpa using hk
      have h1 : lbLookup k (lbInsert g a) = some (lbAggAdd v a) := by
        rw [lbInsert, hkeq, lbUpdate_lookup_self, h]; rfl
      rw [List.foldl_cons, ih (lbInsert g a) (lbAggAdd v a) h1]
      simp [List.filter_cons, hk]
    · have h1 : lbLookup k (lbInsert g a) = some v := by
        rw [lbInsert]
        rw [lbUpdate_lookup_other (lbKeyOf a) k (lbAggInit a) a
          (fun he => absurd (beq_iff_eq.mpr he.symm) (by simpa using hk))]
        exact h
      rw [List.foldl_cons, ih (lbInsert g a) v h1]
      simp [List.filter_cons, hk]

theorem lbFoldl_lookup_none (k : String) :
    ∀ (attempts : List PromptAttempt) (g : List (String × LbAggregate)),
      lbLookup k g = none →
      lbLookup k (attempts.foldl lbInsert g) =
        match attempts.filter (fun x => lbKeyOf x == k) with
        | [] => none
        | x :: rest => some ((x :: rest).foldl lbAggAdd (lbAggInit x)) := by
  intro attempts
  induction attempts with
  | nil => intro g h; simpa using h
  | cons a rest ih =>
    intro g h
    by_cases hk : (lbKeyOf a == k) = true
    · have hkeq : lbKeyOf a = k := by simpa using hk
      have h1 : lbLookup k (lbInsert g a) = some (lbAggAdd (lbAggInit a) a) := by
        rw [lbInsert, hkeq, lbUpdate_lookup_self, h]; rfl
      rw [List.foldl_cons,
        lbFoldl_lookup_some k rest (lbInsert g a) (lbAggAdd (lbAggInit a) a) h1]
      simp [List.filter_cons, hk]
    · have h1 : lbLookup k (lbInsert g a) = none := by
        rw [lbInsert]
        rw [lbUpdate_lookup_other (lbKeyOf a) k (lbAggInit a) a
          (fun he => absurd (beq_iff_eq.mpr he.symm) (by simpa using hk))]
        exact h
      rw [List.foldl_cons, ih (lbInsert g a) h1]
      simp [List.filter_cons, hk]

theorem lbAggAdd_foldl :
    ∀ (grp : List PromptAttempt) (v : LbAggregate),
      (grp.foldl lbAggAdd v).workflow = v.workflow ∧
      (grp.foldl lbAggAdd v).promptVersion = v.promptVersion ∧
      (grp.foldl lbAggAdd v).model = v.model ∧
      (grp.foldl lbAggAdd v).attempts = v.attempts + (grp.length : Int) ∧
      (grp.foldl lbAggAdd v).successes =
        v.successes + (grp.countP (fun x => x.Outcome == "success") : Int) ∧
      (grp.foldl lbAggAdd v).failures =
        v.failures + (grp.countP (fun x => !(x.Outcome == "success")) : Int) ∧
      (grp.foldl lbAggAdd v).totalCost = v.totalCost + (grp.map (fun x => x.CostUSD)).sum ∧
      (grp.foldl lbAggAdd v).totalLatency =
        v.totalLatency + (grp.map (fun x => x.LatencyMS)).sum := by
  intro grp
  induction grp with
  | nil => intro v; simp
  | cons a rest ih =>
    intro v
    obtain ⟨h1, h2, h3, h4, h5, h6, h7, h8⟩ := ih (lbAggAdd v a)
    rw [List.foldl_cons]
    refine ⟨by rw [h1]; rfl, by rw [h2]; rfl, by rw [h3]; rfl, ?_, ?_, ?_, ?_, ?_⟩
    · rw [h4]; show v.attempts + 1 + _ = _
      simp only [List.length_cons]; push_cast; ring
    · rw [h5]; show (if a.Outcome == "success" then v.successes + 1 else v.successes) + _ = _
      rw [List.countP_cons]
      by_cases hs : (a.Outcome == "success") = true <;> simp [hs] <;> push_cast <;> ring
    · rw [h6]; show (if a.Outcome == "success" then v.failures else v.failures + 1) + _ = _
      rw [List.countP_cons]
      by_cases hs : (a.Outcome == "success") = true <;> simp [hs] <;> push_cast <;> ring
    · rw [h7]; show v.totalCost + a.CostUSD + _ = _
      simp only [List.map_cons, List.sum_cons]; ring
    · rw [h8]; show v.totalLatency + a.LatencyMS + _ = _
      simp only [List.map_cons, List.sum_cons]; ring

instance : IsTotal LeaderboardEntry lbBefore := by
  constructor
  intro a b
  unfold lbBefore
  rcases lt_trichotomy a.Score b.Score with h | h | h
  · exact Or.inr (Or.inl h)
  · rcases lt_trichotomy a.SuccessRate b.SuccessRate with h' | h' | h'
    · exact Or.inr (Or.inr ⟨h.symm, Or.inl h'⟩)
    · rcases le_total a.PromptVersion b.PromptVersion with h'' | h''
      · exact Or.inl (Or.inr ⟨h, Or.inr ⟨h', h''⟩⟩)
      · exact Or.inr (Or.inr ⟨h.symm, Or.inr ⟨h'.symm, h''⟩⟩)
    · exact Or.inl (Or.inr ⟨h, Or.inl h'⟩)
  · exact Or.inl (Or.inl h)

instance : IsTrans LeaderboardEntry lbBefore := by
  constructor
  intro a b c hab hbc
  unfold lbBefore at hab hbc ⊢
  rcases hab with h1 | ⟨e1, h1⟩
  · rcases hbc with h2 | ⟨e2, h2⟩
    · exact Or.inl (lt_trans h2 h1)
    · exact Or.inl (by rw [← e2]; exact h1)
  · rcases hbc with h2 | ⟨e2, h2⟩
    · exact Or.inl (by rw [e1]; exact h2)
    · refine Or.inr ⟨e1.trans e2, ?_⟩
      rcases h1 with h1 | ⟨f1, h1⟩
      · rcases h2 with h2 | ⟨f2, h2⟩
        · exact Or.inl (lt_trans h2 h1)
        · exact Or.inl (by rw [← f2]; exact h1)
      · rcases h2 with h2 | ⟨f2, h2⟩
        · exact Or.inl (by rw [f1]; exact h2)
        · exact Or.inr ⟨f1.trans f2, le_trans h1 h2⟩

theorem append_bar_inj (c : Char) :
    ∀ (as as' bs bs' : List Char), c ∉ as → c ∉ as' →
      as ++ c :: bs = as' ++ c :: bs' → as = as' ∧ bs = bs' := by
  intro as
  induction as with
  | nil =>
    intro as' bs bs' _ h2 h
    cases as' with
    | nil => simpa using h
    | cons x t =>
      rw [List.nil_append, List.cons_append, List.cons_eq_cons] at h
      exact absurd (h.1 ▸ List.mem_cons_self x t) h2
  | cons x t ih =>
    intro as' bs bs' h1 h2 h
    cases as' with
    | nil =>
      rw [List.nil_append, List.cons_append, List.cons_eq_cons] at h
      exact absurd (h.1 ▸ List.mem_cons_self x t) h1
    | cons x' t' =>
      rw [List.cons_append, List.cons_append, List.cons_eq_cons] at h
      obtain ⟨ht, hb⟩ := ih t' bs bs' (fun hm => h1 (List.mem_cons_of_mem x hm))
        (fun hm => h2 (List.mem_cons_of_mem x' hm)) h.2
      exact ⟨by rw [h.1, ht], hb⟩

theorem lbKey_inj (w pv m w' pv' m' : String)
    (hw : Char.ofNat 124 ∉ w.data) (hpv : Char.ofNat 124 ∉ pv.data)
    (hw' : Char.ofNat 124 ∉ w'.data) (hpv' : Char.ofNat 124 ∉ pv'.data)
    (h : lbKey w pv m = lbKey w' pv' m') : w = w' ∧ pv = pv' ∧ m = m' := by
  have hdata : w.data ++ Char.ofNat 124 :: (pv.data ++ Char.ofNat 124 :: m.data) =
      w'.data ++ Char.ofNat 124 :: (pv'.data ++ Char.ofNat 124 :: m'.data) := by
    have := congrArg String.data h
    simpa [lbKey, String.data_append] using this
  obtain ⟨hww, hrest⟩ := append_bar_inj (Char.ofNat 124) w.data w'.data _ _ hw hw' hdata
  obtain ⟨hpp, hmm⟩ := append_bar_inj (Char.ofNat 124) pv.data pv'.data _ _ hpv hpv' hrest
  refine ⟨?_, ?_, ?_⟩
  · cases w; cases w'; exact congrArg String.mk (by simpa using hww)
  · cases pv; cases pv'; exact congrArg String.mk (by simpa using hpp)
  · cases m; cases m'; exact congrArg String.mk (by simpa using hmm)

/-- **C8** (amended).  Leaderboard validates the request, then groups the
filtered attempts by the joined string key workflow|prompt_version|model —
which coincides with grouping by the triple whenever workflow and
prompt_version contain no pipe character, but can merge distinct triples
otherwise.  Each returned entry aggregates exactly the attempts sharing its
key: attempts = group size, success_attempts = successes,
failed_attempts = attempts − success_attempts,
success_rate = successes/attempts, averages = totals/attempts, and
score = success_rate·100 − average_cost_usd·100 − average_latency_ms/1000.
The output is sorted descending by score, ties by higher success rate,
remaining ties by prompt_version ascending, and truncated to the limit
when 0 < limit < size. -/
theorem leaderboard_grouped_sorted (s : State) (request : LeaderboardRequest)
    (createdAfter : String)
    (hlim : ¬ request.Limit < 0) (hwin : ¬ request.WindowDays < 0) :
    let atts := s.attempts.filter (lbFilter request.Workflow.trimSpace
      request.Model.trimSpace request.PromptVersion.trimSpace
      (if 0 < request.WindowDays then createdAfter else ""))
    let out := leaderboardOf atts request.Limit
    leaderboard s request createdAfter = .ok out ∧
    (∀ e ∈ out, ∃ a ∈ atts, ∃ grp,
      grp = atts.filter (fun x => lbKeyOf x == lbKeyOf a) ∧
      grp.head? = some a ∧
      e.Workflow = a.Workflow ∧ e.PromptVersion = a.PromptVersion ∧
      e.Model = a.Model ∧
      e.Attempts = (grp.length : Int) ∧
      e.SuccessAttempts = (grp.countP (fun x => x.Outcome == "success") : Int) ∧
      e.FailedAttempts = e.Attempts - e.SuccessAttempts ∧
      e.SuccessRate = (e.SuccessAttempts : ℚ) / (e.Attempts : ℚ) ∧
      e.AverageCostUSD = (grp.map (fun x => x.CostUSD)).sum / (grp.length : ℚ) ∧
      e.AverageLatencyMS =
        ((grp.map (fun x => x.LatencyMS)).sum : ℚ) / (grp.length : ℚ) ∧
      e.Score = e.SuccessRate * 100 - e.AverageCostUSD * 100 -
        e.AverageLatencyMS / 1000) ∧
    List.Sorted lbBefore out ∧
    (request.Limit = 0 → out.Perm (lbEntries atts)) ∧
    (0 < request.Limit → (out.length : Int) ≤ request.Limit) ∧
    ((∀ x ∈ atts, Char.ofNat 124 ∉ x.Workflow.data ∧
        Char.ofNat 124 ∉ x.PromptVersion.data) →
      ∀ a ∈ atts, atts.filter (fun x => lbKeyOf x == lbKeyOf a) =
        atts.filter (fun x => x.Workflow == a.Workflow &&
          x.PromptVersion == a.PromptVersion && x.Model == a.Model)) := by
  intro atts out
  refine ⟨?_, ?_, ?_, ?_, ?_, ?_⟩
  · show leaderboard s request createdAfter = .ok out
    simp only [leaderboard]
    rw [if_neg hlim, if_neg hwin]
  · intro e he
    have he' : e ∈ leaderboardOf atts request.Limit := he
    simp only [leaderboardOf] at he'
    have hsort : e ∈ (lbEntries atts).insertionSort lbBefore := by
      split at he'
      · exact List.take_subset _ _ he'
      · exact he'
    have hmem : e ∈ lbEntries atts :=
      (List.perm_insertionSort lbBefore (lbEntries atts)).mem_iff.mp hsort
    simp only [lbEntries] at hmem
    obtain ⟨v, hvmem, hve⟩ := List.mem_map.mp hmem
    obtain ⟨hv2, _⟩ := List.mem_filter.mp hvmem
    obtain ⟨kv, hkvmem, hkv2⟩ := List.mem_map.mp hv2
    have hlook : lbLookup kv.1 (lbGroup atts) = some kv.2 :=
      lbLookup_of_mem (lbGroup atts)
        (lbFoldl_keys_nodup atts [] (by simp)) kv hkvmem
    have hfold := lbFoldl_lookup_none kv.1 atts [] rfl
    rw [show (atts.foldl lbInsert [] : List (String × LbAggregate)) =
      lbGroup atts from rfl, hlook] at hfold
    rcases hfe : atts.filter (fun x => lbKeyOf x == kv.1) with _ | ⟨x, rest⟩
    · rw [hfe] at hfold; exact absurd hfold (by simp)
    · rw [hfe] at hfold
      have hv : kv.2 = (x :: rest).foldl lbAggAdd (lbAggInit x) := by
        simpa using hfold
      have hx := List.mem_filter.mp (hfe ▸ List.mem_cons_self x rest)
      have hxk : lbKeyOf x = kv.1 := by simpa using hx.2
      subst hve hkv2
      rw [hv]
      obtain ⟨f1, f2, f3, f4, f5, f6, f7, f8⟩ :=
        lbAggAdd_foldl (x :: rest) (lbAggInit x)
      refine ⟨x, hx.1, x :: rest, by rw [hxk]; exact hfe.symm, rfl, ?_, ?_, ?_,
        ?_, ?_, ?_, ?_, ?_, ?_, ?_⟩
      · simp only [lbEntry]; rw [f1]; rfl
      · simp only [lbEntry]; rw [f2]; rfl
      · simp only [lbEntry]; rw [f3]; rfl
      · simp only [lbEntry]; rw [f4]; simp [lbAggInit]
      · simp only [lbEntry]; rw [f5]; simp [lbAggInit]
      · simp only [lbEntry]; rw [f4, f5, f6]; simp only [lbAggInit]
        have hlen : (x :: rest : List PromptAttempt).length =
            (x :: rest).countP (fun y => y.Outcome == "success") +
            (x :: rest).countP (fun y => !(y.Outcome == "success")) := by
          simpa using List.length_eq_countP_add_countP
            (fun y => y.Outcome == "success") (x :: rest)
        omega
      · simp only [lbEntry]
      · simp only [lbEntry]; rw [f7, f4]; simp [lbAggInit]
      · simp only [lbEntry]; rw [f8, f4]; simp [lbAggInit]; rfl
      · simp only [lbEntry]
  · show List.Sorted lbBefore (leaderboardOf atts request.Limit)
    simp only [leaderboardOf]
    split
    · exact List.Pairwise.sublist (List.take_sublist _ _)
        (List.sorted_insertionSort lbBefore (lbEntries atts))
    · exact List.sorted_insertionSort lbBefore (lbEntries atts)
  · intro h0
    show (leaderboardOf atts request.Limit).Perm (lbEntries atts)
    simp only [leaderboardOf]
    rw [if_neg (by simp [h0])]
    exact List.perm_insertionSort lbBefore (lbEntries atts)
  · intro hpos
    show ((leaderboardOf atts request.Limit).length : Int) ≤ request.Limit
    simp only [leaderboardOf]
    split
    · rw [List.length_take]
      rename_i hcond
      omega
    · rename_i hcond
      rcases not_and_or.mp hcond with h | h
      · exact absurd hpos h
      · omega
  · intro hfree a ha
    apply List.filter_congr
    intro x hx
    obtain ⟨hxw, hxpv⟩ := hfree x hx
    obtain ⟨haw, hapv⟩ := hfree a ha
    by_cases h : lbKeyOf x = lbKeyOf a
    · have h3 := lbKey_inj x.Workflow x.PromptVersion x.Model
        a.Workflow a.PromptVersion a.Model hxw hxpv haw hapv h
      simp [h, h3.1, h3.2.1, h3.2.2]
    · have hL : (lbKeyOf x == lbKeyOf a) = false := beq_eq_false_iff_ne.mpr h
      rw [hL]
      cases hb : (x.Workflow == a.Workflow &&
          x.PromptVersion == a.PromptVersion && x.Model == a.Model)
      · rfl
      · obtain ⟨⟨h1, h2⟩, h3⟩ := by
          simpa [Bool.and_eq_true, beq_iff_eq] using hb
        exact absurd (by unfold lbKeyOf lbKey; rw [h1, h2, h3]) h

/-- A baseline attempt for the leaderboard examples. -/
def lbBaseAttempt : PromptAttempt :=
  { ID := "p0", RunID := "r1", AttemptNumber := 1, Workflow := "w", AgentID := "a"
    ProviderType := "api", Provider := "", Model := "m", PromptVersion := ""
    PromptHash := "", Outcome := "success", ErrorType := "", ErrorMessage := ""
    TokensIn := 0, TokensOut := 0, CostUSD := 0, LatencyMS := 0, QualityScore := 0
    CreatedAt := "t1" }

/-- Two attempts in two distinct pipe-free groups. -/
def lbStateExample : State :=
  { initialState with attempts :=
      [ { lbBaseAttempt with ID := "p1", Model := "m1", Outcome := "success" },
        { lbBaseAttempt with ID := "p2", Model := "m2", Outcome := "failed" } ] }

/-- Witness for the leaderboard theorem at a concrete two-group state. -/
theorem leaderboard_grouped_sorted_witness :
    ∃ out, leaderboard lbStateExample { Limit := 0 } "" = .ok out ∧
      List.Sorted lbBefore out := by
  have h := leaderboard_grouped_sorted lbStateExample { Limit := 0 } ""
    (by decide) (by decide)
  exact ⟨_, h.1, h.2.2.1⟩

/-- An attempt whose prompt version ends in a pipe character. -/
def lbCollideA : PromptAttempt :=
  { lbBaseAttempt with ID := "p1", Workflow := "a"
                       PromptVersion := "b|", Model := "c"
                       Outcome := "success" }

/-- An attempt of a different triple that joins to the same key. -/
def lbCollideB : PromptAttempt :=
  { lbBaseAttempt with ID := "p2", Workflow := "a|b"
                       PromptVersion := "", Model := "c"
                       Outcome := "failed" }

/-- State holding the two colliding attempts. -/
def lbCollideState : State :=
  { initialState with attempts := [lbCollideA, lbCollideB] }

/-- **C8, counterexample.**  Grouping is by the string
workflow|prompt_version|model, not by the triple: the triples
(a, b|, c) and (a|b, ε, c) are distinct yet join to the same key, so the
two attempts are merged into one leaderboard entry with attempts = 2
instead of forming two groups. -/
theorem leaderboard_key_collision :
    (lbCollideA.Workflow, lbCollideA.PromptVersion, lbCollideA.Model) ≠
      (lbCollideB.Workflow, lbCollideB.PromptVersion, lbCollideB.Model) ∧
    lbKeyOf lbCollideA = lbKeyOf lbCollideB ∧
    ∃ e, leaderboard lbCollideState { Limit := 0 } "" = .ok [e] ∧
      e.Attempts = 2 := by
  exact ⟨by decide, by decide,
    lbEntry (lbAggAdd (lbAggAdd (lbAggInit lbCollideA) lbCollideA) lbCollideB),
    rfl, by decide⟩

/-! ### C5: idempotency store and interceptor -/

/-- `store.IdempotencyRecord` (the fields used by the file store and the
interceptor). -/
structure IdempotencyRecord where
  RequestHash : String := ""
  ResponseJSON : String := ""
  Completed : Bool := false
deriving DecidableEq, Repr

/-- The idempotency table of `FileStore`.  The Go map key is the join
`method ++ "::" ++ key`; the model keys by the pair, which the join
determines and which determines the join for the gRPC full-method names in
`WriteMethods` (none contains a colon pair). -/
def IdemState := String × String → Option IdempotencyRecord

/-- `FileStore.ReserveIdempotencyKey`: trims both tokens, validates, and
either returns the existing record with `created = false` or stores a
pending record and returns `created = true` with a zero record. -/
def reserveIdempotencyKey (st : IdemState) (method idempotencyKey requestHash : String) :
    IdemState × Except AppError (IdempotencyRecord × Bool) :=
  let m := method.trimSpace
  let k := idempotencyKey.trimSpace
  if m = "" ∨ k = "" ∨ requestHash = "" then
    (st, .error ⟨.invalidArgument, "method, idempotency_key, and request_hash are required"⟩)
  else
    match st (m, k) with
    | some record => (st, .ok (record, false))
    | none =>
      ((fun p => if p = (m, k) then some { RequestHash := requestHash } else st p),
        .ok ({}, true))

/-- `FileStore.CompleteIdempotencyKey`: stores the response and marks the
record completed. -/
def completeIdempotencyKey (st : IdemState) (method idempotencyKey responseJSON : String) :
    IdemState × Except AppError Unit :=
  let m := method.trimSpace
  let k := idempotencyKey.trimSpace
  if m = "" ∨ k = "" then
    (st, .error ⟨.invalidArgument, "method and idempotency_key are required"⟩)
  else
    match st (m, k) with
    | none => (st, .error ⟨.notFound, "idempotency key not found"⟩)
    | some record =>
      ((fun p => if p = (m, k) then
          some { record with ResponseJSON := responseJSON, Completed := true }
        else st p), .ok ())

/-- `FileStore.ReleaseIdempotencyKey`: deletes the record unless it is
already completed (always returns nil). -/
def releaseIdempotencyKey (st : IdemState) (method idempotencyKey : String) : IdemState :=
  let m := method.trimSpace
  let k := idempotencyKey.trimSpace
  if m = "" ∨ k = "" then st
  else
    match st (m, k) with
    | none => st
    | some record =>
      if record.Completed then st
      else (fun p => if p = (m, k) then none else st p)

/-- `decodeIdempotentResponse`: trims the stored JSON, fails on empty, and
otherwise round-trips (parse then rebuild; responses are identified with
their canonical JSON rendering, so the round trip is the trimmed string). -/
def decodeIdempotentResponse (responseJSON : String) : Except AppError String :=
  if responseJSON.trimSpace = "" then
    .error ⟨.internalError, "stored idempotent response is empty"⟩
  else .ok responseJSON.trimSpace

/-- `IdempotencyUnaryInterceptor` (server.go): `isWriteMethod` stands for
membership of the method in `rpccontract.WriteMethods`, `idempotencyKey`
for the raw extracted header (the extractor trims it), `requestHash` for
the canonical request hash, and the handler for the wrapped RPC acting on
side state `σ` and returning its response as canonical JSON. -/
def idempotencyInterceptor {σ : Type} (idem : IdemState) (side : σ)
    (isWriteMethod : Bool) (method idempotencyKey requestHash : String)
    (handler : σ → σ × Except AppError String) :
    (IdemState × σ) × Except AppError String :=
  if ¬ isWriteMethod then
    let (side', res) := handler side
    ((idem, side'), res)
  else if idempotencyKey.trimSpace = "" then
    let (side', res) := handler side
    ((idem, side'), res)
  else
    let key := idempotencyKey.trimSpace
    match reserveIdempotencyKey idem method key requestHash with
    | (idem', .error e) => ((idem', side), .error e)
    | (idem', .ok (record, created)) =>
      if created then
        match handler side with
        | (side', .error e) => ((releaseIdempotencyKey idem' method key, side'), .error e)
        | (side', .ok response) =>
          match completeIdempotencyKey idem' method key response with
          | (idem'', .error e) => ((idem'', side'), .error e)
          | (idem'', .ok ()) => ((idem'', side'), .ok response)
      else
        if record.RequestHash ≠ requestHash then
          ((idem', side), .error ⟨.conflict,
            "idempotency_key has already been used with a different request payload"⟩)
        else if ¬ record.Completed then
          ((idem', side), .error ⟨.failedPrecondition,
            "idempotency key is already in progress"⟩)
        else
          ((idem', side), decodeIdempotentResponse record.ResponseJSON)

theorem reserveIdempotencyKey_eq (st : IdemState) (method key hash : String)
    (hm : method.trimSpace = method) (hki : key.trimSpace = key)
    (hm0 : ¬ method = "") (hk0 : ¬ key = "") (hh : ¬ hash = "") :
    reserveIdempotencyKey st method key hash =
      match st (method, key) with
      | some record => (st, .ok (record, false))
      | none => ((fun p => if p = (method, key) then
          some { RequestHash := hash } else st p), .ok ({}, true)) := by
  simp only [reserveIdempotencyKey, hm, hki]
  rw [if_neg (by simp [hm0, hk0, hh])]

theorem completeIdempotencyKey_eq (st : IdemState) (method key response : String)
    (hm : method.trimSpace = method) (hki : key.trimSpace = key)
    (hm0 : ¬ method = "") (hk0 : ¬ key = "") :
    completeIdempotencyKey st method key response =
      match st (method, key) with
      | none => (st, .error ⟨.notFound, "idempotency key not found"⟩)
      | some record =>
        ((fun p => if p = (method, key) then
            some { record with ResponseJSON := response, Completed := true }
          else st p), .ok ()) := by
  simp only [completeIdempotencyKey, hm, hki]
  rw [if_neg (by simp [hm0, hk0])]

theorem releaseIdempotencyKey_eq (st : IdemState) (method key : String)
    (hm : method.trimSpace = method) (hki : key.trimSpace = key)
    (hm0 : ¬ method = "") (hk0 : ¬ key = "") :
    releaseIdempotencyKey st method key =
      match st (method, key) with
      | none => st
      | some record =>
        if record.Completed then st
        else (fun p => if p = (method, key) then none else st p) := by
  simp only [releaseIdempotencyKey, hm, hki]
  rw [if_neg (by simp [hm0, hk0])]

theorem interceptor_fresh_error {σ : Type} (idem : IdemState) (side : σ)
    (m k h : String) (handler : σ → σ × Except AppError String)
    (hm : m.trimSpace = m) (hm0 : ¬ m = "") (hk : ¬ k.trimSpace = "")
    (hh : ¬ h = "") (hnone : idem (m, k.trimSpace) = none)
    (sd' : σ) (e : AppError) (hhandler : handler side = (sd', .error e)) :
    idempotencyInterceptor idem side true m k h handler = ((idem, sd'), .error e) := by
  simp only [idempotencyInterceptor]
  rw [if_neg (by simp), if_neg hk,
    reserveIdempotencyKey_eq idem m k.trimSpace h hm (String.trimSpace_idem k) hm0 hk hh,
    hnone]
  simp only [hhandler]
  rw [releaseIdempotencyKey_eq _ m k.trimSpace hm (String.trimSpace_idem k) hm0 hk]
  simp only [if_pos rfl]
  refine congrArg (fun f => ((f, sd'), Except.error e)) ?_
  funext p
  by_cases hp : p = (m, k.trimSpace)
  · simp [hp, hnone]
  · simp [hp]

theorem interceptor_fresh_ok {σ : Type} (idem : IdemState) (side : σ)
    (m k h : String) (handler : σ → σ × Except AppError String)
    (hm : m.trimSpace = m) (hm0 : ¬ m = "") (hk : ¬ k.trimSpace = "")
    (hh : ¬ h = "") (hnone : idem (m, k.trimSpace) = none)
    (sd' : σ) (r : String) (hhandler : handler side = (sd', .ok r)) :
    idempotencyInterceptor idem side true m k h handler =
      ((fun p => if p = (m, k.trimSpace) then
          some { RequestHash := h, ResponseJSON := r, Completed := true }
        else idem p, sd'), .ok r) := by
  simp only [idempotencyInterceptor]
  rw [if_neg (by simp), if_neg hk,
    reserveIdempotencyKey_eq idem m k.trimSpace h hm (String.trimSpace_idem k) hm0 hk hh,
    hnone]
  simp only [hhandler]
  rw [completeIdempotencyKey_eq _ m k.trimSpace r hm (String.trimSpace_idem k) hm0 hk]
  simp only [if_pos rfl]
  refine congrArg (fun f => ((f, sd'), Except.ok r)) ?_
  funext p
  by_cases hp : p = (m, k.trimSpace)
  · simp [hp]
  · simp [hp]

theorem interceptor_replay_conflict {σ : Type} (idem : IdemState) (side : σ)
    (m k h : String) (handler : σ → σ × Except AppError String)
    (hm : m.trimSpace = m) (hm0 : ¬ m = "") (hk : ¬ k.trimSpace = "")
    (hh : ¬ h = "") (rec : IdempotencyRecord)
    (hsome : idem (m, k.trimSpace) = some rec) (hhash : rec.RequestHash ≠ h) :
    idempotencyInterceptor idem side true m k h handler =
      ((idem, side), .error ⟨.conflict,
        "idempotency_key has already been used with a different request payload"⟩) := by
  simp only [idempotencyInterceptor]
  rw [if_neg (by simp), if_neg hk,
    reserveIdempotencyKey_eq idem m k.trimSpace h hm (String.trimSpace_idem k) hm0 hk hh,
    hsome]
  simp only [Bool.false_eq_true, if_false, if_pos hhash]

theorem interceptor_replay_inprogress {σ : Type} (idem : IdemState) (side : σ)
    (m k h : String) (handler : σ → σ × Except AppError String)
    (hm : m.trimSpace = m) (hm0 : ¬ m = "") (hk : ¬ k.trimSpace = "")
    (hh : ¬ h = "") (rec : IdempotencyRecord)
    (hsome : idem (m, k.trimSpace) = some rec) (hhash : rec.RequestHash = h)
    (hcomp : rec.Completed = false) :
    idempotencyInterceptor idem side true m k h handler =
      ((idem, side), .error ⟨.failedPrecondition,
        "idempotency key is already in progress"⟩) := by
  simp only [idempotencyInterceptor]
  rw [if_neg (by simp), if_neg hk,
    reserveIdempotencyKey_eq idem m k.trimSpace h hm (String.trimSpace_idem k) hm0 hk hh,
    hsome]
  simp only [Bool.false_eq_true, if_false, hhash, ne_eq, not_true_eq_false,
    if_neg, hcomp, not_false_eq_true, if_pos]

theorem interceptor_replay_completed {σ : Type} (idem : IdemState) (side : σ)
    (m k h : String) (handler : σ → σ × Except AppError String)
    (hm : m.trimSpace = m) (hm0 : ¬ m = "") (hk : ¬ k.trimSpace = "")
    (hh : ¬ h = "") (rec : IdempotencyRecord)
    (hsome : idem (m, k.trimSpace) = some rec) (hhash : rec.RequestHash = h)
    (hcomp : rec.Completed = true)
    (hrt : rec.ResponseJSON.trimSpace = rec.ResponseJSON)
    (hr0 : rec.ResponseJSON ≠ "") :
    idempotencyInterceptor idem side true m k h handler =
      ((idem, side), .ok rec.ResponseJSON) := by
  simp only [idempotencyInterceptor]
  rw [if_neg (by simp), if_neg hk,
    reserveIdempotencyKey_eq idem m k.trimSpace h hm (String.trimSpace_idem k) hm0 hk hh,
    hsome]
  simp only [Bool.false_eq_true, if_false, hhash, ne_eq, not_true_eq_false,
    if_neg, hcomp, not_false_eq_true, if_pos]
  rw [decodeIdempotentResponse, if_neg (by rw [hrt]; exact hr0), hrt]

/-- **C5.**  For a write method `m` and trimmed non-empty idempotency key,
against any idempotency table and side state: a first call (no record for
the key) reserves it and runs the handler — on handler error the
reservation is released, restoring the table exactly, and the error
propagates; on success the response is stored under the key (completed,
with the request hash) and returned.  A later call finding a record with a
different request hash fails Conflict; a record not yet completed fails
FailedPrecondition; a completed record's stored response is returned with
no handler invocation and no state change.  Hence a replay after a first
successful call — with any second handler — returns the first response and
leaves both the table and the side state untouched: the side effect
happens exactly once. -/
theorem idempotency_interceptor_spec {σ : Type} (idem : IdemState) (side : σ)
    (m k h : String) (handler : σ → σ × Except AppError String)
    (hm : m.trimSpace = m) (hm0 : ¬ m = "") (hk : ¬ k.trimSpace = "")
    (hh : ¬ h = "") :
    (idem (m, k.trimSpace) = none → ∀ (sd' : σ) (e : AppError),
      handler side = (sd', .error e) →
      idempotencyInterceptor idem side true m k h handler =
        ((idem, sd'), .error e)) ∧
    (idem (m, k.trimSpace) = none → ∀ (sd' : σ) (r : String),
      handler side = (sd', .ok r) →
      idempotencyInterceptor idem side true m k h handler =
        ((fun p => if p = (m, k.trimSpace) then
            some { RequestHash := h, ResponseJSON := r, Completed := true }
          else idem p, sd'), .ok r)) ∧
    (∀ rec, idem (m, k.trimSpace) = some rec → rec.RequestHash ≠ h →
      idempotencyInterceptor idem side true m k h handler =
        ((idem, side), .error ⟨.conflict,
          "idempotency_key has already been used with a different request payload"⟩)) ∧
    (∀ rec, idem (m, k.trimSpace) = some rec → rec.RequestHash = h →
      rec.Completed = false →
      idempotencyInterceptor idem side true m k h handler =
        ((idem, side), .error ⟨.failedPrecondition,
          "idempotency key is already in progress"⟩)) ∧
    (∀ rec, idem (m, k.trimSpace) = some rec → rec.RequestHash = h →
      rec.Completed = true → rec.ResponseJSON.trimSpace = rec.ResponseJSON →
      rec.ResponseJSON ≠ "" →
      idempotencyInterceptor idem side true m k h handler =
        ((idem, side), .ok rec.ResponseJSON)) ∧
    (idem (m, k.trimSpace) = none → ∀ (sd' : σ) (r : String),
      handler side = (sd', .ok r) → r.trimSpace = r → r ≠ "" →
      ∀ (handler2 : σ → σ × Except AppError String),
      idempotencyInterceptor
        (idempotencyInterceptor idem side true m k h handler).1.1
        (idempotencyInterceptor idem side true m k h handler).1.2
        true m k h handler2 =
      (((idempotencyInterceptor idem side true m k h handler).1.1, sd'), .ok r)) := by
  refine ⟨?_, ?_, ?_, ?_, ?_, ?_⟩
  · intro hnone sd' e hhandler
    exact interceptor_fresh_error idem side m k h handler hm hm0 hk hh hnone sd' e hhandler
  · intro hnone sd' r hhandler
    exact interceptor_fresh_ok idem side m k h handler hm hm0 hk hh hnone sd' r hhandler
  · intro rec hsome hhash
    exact interceptor_replay_conflict idem side m k h handler hm hm0 hk hh rec hsome hhash
  · intro rec hsome hhash hcomp
    exact interceptor_replay_inprogress idem side m k h handler hm hm0 hk hh rec
      hsome hhash hcomp
  · intro rec hsome hhash hcomp hrt hr0
    exact interceptor_replay_completed idem side m k h handler hm hm0 hk hh rec
      hsome hhash hcomp hrt hr0
  · intro hnone sd' r hhandler hrt hr0 handler2
    rw [interceptor_fresh_ok idem side m k h handler hm hm0 hk hh hnone sd' r hhandler]
    exact interceptor_replay_completed _ sd' m k h handler2 hm hm0 hk hh
      { RequestHash := h, ResponseJSON := r, Completed := true }
      (by simp) rfl rfl (by simpa using hrt) hr0

/-- Witness: a fresh key on an empty table stores the handler response and
returns it; the replay returns it again without running the second
handler. -/
theorem idempotency_interceptor_spec_witness :
    (idempotencyInterceptor (fun _ => none) (0 : Nat) true
        "/modeloman.v1.HubService/CreateTask" "abc" "h1"
        (fun n => (n + 1, .ok "resp"))).2 = .ok "resp" ∧
    idempotencyInterceptor
        (idempotencyInterceptor (fun _ => none) (0 : Nat) true
          "/modeloman.v1.HubService/CreateTask" "abc" "h1"
          (fun n => (n + 1, .ok "resp"))).1.1
        (idempotencyInterceptor (fun _ => none) (0 : Nat) true
          "/modeloman.v1.HubService/CreateTask" "abc" "h1"
          (fun n => (n + 1, .ok "resp"))).1.2
        true "/modeloman.v1.HubService/CreateTask" "abc" "h1"
        (fun n => (n + 100, .error ⟨.internalError, "boom"⟩)) =
      (((idempotencyInterceptor (fun _ => none) (0 : Nat) true
          "/modeloman.v1.HubService/CreateTask" "abc" "h1"
          (fun n => (n + 1, .ok "resp"))).1.1, 1), .ok "resp") := by
  have hs := idempotency_interceptor_spec (fun _ => none) (0 : Nat)
    "/modeloman.v1.HubService/CreateTask" "abc" "h1"
    (fun n => (n + 1, .ok "resp")) (by decide) (by decide) (by decide) (by decide)
  constructor
  · rw [hs.2.1 rfl 1 "resp" rfl]
  · exact hs.2.2.2.2.2 rfl 1 "resp" rfl (by decide) (by decide)
      (fun n => (n + 100, .error ⟨.internalError, "boom"⟩))

/-! ### C9: token-bucket rate limiter (server.go) -/

/-- `grpcx.tokenBucket` (`float64` tokens and `time.Time` instants
modelled in ℚ, times as seconds). -/
structure TokenBucket where
  tokens : ℚ
  lastRefill : ℚ
  lastSeen : ℚ
deriving DecidableEq, Repr

/-- The limiter configuration for one identifier class (`rate` per second,
`burst` capacity, `ttl` idle eviction). -/
structure RLConfig where
  rate : ℚ
  burst : ℚ
  ttl : ℚ
deriving DecidableEq, Repr

/-- The bucket map of `TokenBucketRateLimiter`. -/
def RLState := String → Option TokenBucket

/-- `evictExpiredBuckets`: drops every bucket idle longer than the TTL. -/
def evictExpiredBuckets (cfg : RLConfig) (st : RLState) (now : ℚ) : RLState :=
  fun i => match st i with
    | none => none
    | some b => if now - b.lastSeen > cfg.ttl then none else some b

/-- `TokenBucketRateLimiter.Allow` for one identifier at time `now`:
evict, then create a bucket with `burst - 1` tokens (admitting), or refill
`min(burst, tokens + elapsed·rate)` when time passed, stamp `lastSeen`,
and consume one token if at least one is available. -/
def allow (cfg : RLConfig) (st : RLState) (identifier : String) (now : ℚ) :
    RLState × Bool :=
  let st := evictExpiredBuckets cfg st now
  match st identifier with
  | none =>
    ((fun i => if i = identifier then
        some { tokens := cfg.burst - 1, lastRefill := now, lastSeen := now }
      else st i), true)
  | some bucket =>
    let elapsed := now - bucket.lastRefill
    let bucket := if elapsed > 0 then
        { bucket with tokens := min cfg.burst (bucket.tokens + elapsed * cfg.rate)
                      lastRefill := now }
      else bucket
    let bucket := { bucket with lastSeen := now }
    if bucket.tokens < 1 then
      ((fun i => if i = identifier then some bucket else st i), false)
    else
      ((fun i => if i = identifier then
          some { bucket with tokens := bucket.tokens - 1 } else st i), true)

/-- A sequence of `Allow` calls for one identifier at the given times,
counting the admitted requests. -/
def runAllow (cfg : RLConfig) (identifier : String) :
    List ℚ → RLState → RLState × Nat
  | [], st => (st, 0)
  | t :: ts, st =>
    let step := allow cfg st identifier t
    let rest := runAllow cfg identifier ts step.1
    (rest.1, (if step.2 then 1 else 0) + rest.2)

/-- Normal form of `Allow` on an existing, non-evicted bucket: the bucket
always ends with both stamps at `now` when `lastRefill ≤ now` held. -/
theorem allow_existing (cfg : RLConfig) (st : RLState) (id : String) (t : ℚ)
    (b : TokenBucket) (hsome : st id = some b)
    (hseen : t - b.lastSeen ≤ cfg.ttl) (hlr : b.lastRefill ≤ t) :
    allow cfg st id t =
      (let tok := if 0 < t - b.lastRefill then
          min cfg.burst (b.tokens + (t - b.lastRefill) * cfg.rate)
        else b.tokens
       if tok < 1 then
        ((fun i => if i = id then some ⟨tok, t, t⟩
          else evictExpiredBuckets cfg st t i), false)
       else
        ((fun i => if i = id then some ⟨tok - 1, t, t⟩
          else evictExpiredBuckets cfg st t i), true)) := by
  have hev : (evictExpiredBuckets cfg st t) id = some b := by
    simp only [evictExpiredBuckets, hsome]
    rw [if_neg (not_lt.mpr hseen)]
  simp only [allow, hev]
  by_cases h : 0 < t - b.lastRefill
  · simp only [gt_iff_lt, h, if_pos]
  · have hlreq : b.lastRefill = t := le_antisymm hlr (by linarith [not_lt.mp h])
    simp only [gt_iff_lt, hlreq, sub_self, lt_self_iff_false, if_false]

theorem runAllow_bound (cfg : RLConfig) (id : String) (tHi : ℚ)
    (hrate : 0 ≤ cfg.rate) (hburst : 0 ≤ cfg.burst) :
    ∀ (times : List ℚ) (st : RLState) (b : TokenBucket),
      st id = some b → 0 ≤ b.tokens →
      (∀ t ∈ times, t ≤ tHi) →
      times.Chain' (fun a c => a ≤ c) →
      times.Chain' (fun a c => c - a ≤ cfg.ttl) →
      (∀ t', times.head? = some t' →
        b.lastSeen ≤ t' ∧ b.lastRefill ≤ t' ∧ t' - b.lastSeen ≤ cfg.ttl) →
      b.lastRefill ≤ tHi →
      ((runAllow cfg id times st).2 : ℚ) ≤
        b.tokens + cfg.rate * (tHi - b.lastRefill) := by
  intro times
  induction times with
  | nil =>
    intro st b _ htok _ _ _ _ hlrhi
    have h0 : 0 ≤ cfg.rate * (tHi - b.lastRefill) := mul_nonneg hrate (by linarith)
    simp only [runAllow, Nat.cast_zero]
    linarith
  | cons t ts ih =>
    intro st b hsome htok hhi hsorted hgaps hfirst hlrhi
    obtain ⟨hseen, hlr, hsl⟩ := hfirst t rfl
    have hthi : t ≤ tHi := hhi t (List.mem_cons_self t ts)
    simp only [runAllow]
    rw [allow_existing cfg st id t b hsome hsl hlr]
    set tok : ℚ := (if 0 < t - b.lastRefill then
        min cfg.burst (b.tokens + (t - b.lastRefill) * cfg.rate)
      else b.tokens) with htokdef
    have htok0 : 0 ≤ tok := by
      rw [htokdef]; split
      · rename_i hel
        exact le_min hburst (add_nonneg htok (mul_nonneg (le_of_lt hel) hrate))
      · exact htok
    have htokle : tok ≤ b.tokens + cfg.rate * (t - b.lastRefill) := by
      rw [htokdef]; split
      · calc (min cfg.burst (b.tokens + (t - b.lastRefill) * cfg.rate) : ℚ) ≤
            b.tokens + (t - b.lastRefill) * cfg.rate := min_le_right _ _
          _ = b.tokens + cfg.rate * (t - b.lastRefill) := by ring
      · have h0 : 0 ≤ cfg.rate * (t - b.lastRefill) := mul_nonneg hrate (by linarith)
        linarith
    have hring : cfg.rate * (t - b.lastRefill) + cfg.rate * (tHi - t) =
        cfg.rate * (tHi - b.lastRefill) := by ring
    have hts_hi : ∀ u ∈ ts, u ≤ tHi := fun u hu => hhi u (List.mem_cons_of_mem t hu)
    have hts_sorted : ts.Chain' (fun a c => a ≤ c) := hsorted.tail
    have hts_gaps : ts.Chain' (fun a c => c - a ≤ cfg.ttl) := hgaps.tail
    have hts_first : ∀ t', ts.head? = some t' →
        t ≤ t' ∧ t ≤ t' ∧ t' - t ≤ cfg.ttl := by
      intro t' ht'
      cases ts with
      | nil => exact absurd ht' (by simp)
      | cons u us =>
        have hu : u = t' := by simpa using ht'
        subst hu
        exact ⟨(List.chain'_cons.mp hsorted).1, (List.chain'_cons.mp hsorted).1,
          (List.chain'_cons.mp hgaps).1⟩
    by_cases hadm : tok < 1
    · rw [if_pos hadm]
      have hrest : ((runAllow cfg id ts (fun i => if i = id then some ⟨tok, t, t⟩
          else evictExpiredBuckets cfg st t i)).2 : ℚ) ≤ tok + cfg.rate * (tHi - t) :=
        ih _ ⟨tok, t, t⟩ (by simp) htok0 hts_hi hts_sorted hts_gaps hts_first hthi
      simp only [Bool.false_eq_true, if_false, Nat.cast_add, Nat.cast_zero]
      push_cast
      linarith
    · rw [if_neg hadm]
      have hrest : ((runAllow cfg id ts (fun i => if i = id then some ⟨tok - 1, t, t⟩
          else evictExpiredBuckets cfg st t i)).2 : ℚ) ≤
          (tok - 1) + cfg.rate * (tHi - t) :=
        ih _ ⟨tok - 1, t, t⟩ (by simp)
          (by show (0 : ℚ) ≤ tok - 1; linarith [not_lt.mp hadm])
          hts_hi hts_sorted hts_gaps hts_first hthi
      simp only [if_true, Nat.cast_add, Nat.cast_one]
      push_cast
      linarith

/-- **C9** (amended).  For a fresh identifier and calls at nondecreasing
times within a window [t0, t0 + T], PROVIDED no two consecutive calls are
more than the idle TTL apart (so the bucket is never evicted and
re-created inside the window), the limiter admits at most
burst + ⌊rate·T⌋ requests: the first call creates the bucket with
burst − 1 tokens and admits, each later admit consumes one token, and
refills add at most rate·elapsed tokens, capped at burst.  Without the
TTL proviso the bound fails (see the eviction counterexample). -/
theorem tokenBucket_window_bound (cfg : RLConfig) (st : RLState) (id : String)
    (times : List ℚ) (t0 T : ℚ) (B : ℕ)
    (hB : cfg.burst = (B : ℚ)) (hB1 : 1 ≤ B) (hrate : 0 ≤ cfg.rate) (hT : 0 ≤ T)
    (hnone : st id = none)
    (hsorted : times.Chain' (fun a c => a ≤ c))
    (hbounds : ∀ t ∈ times, t0 ≤ t ∧ t ≤ t0 + T)
    (hgaps : times.Chain' (fun a c => c - a ≤ cfg.ttl)) :
    ((runAllow cfg id times st).2 : ℤ) ≤ (B : ℤ) + ⌊cfg.rate * T⌋ := by
  have hfloor : (0 : ℤ) ≤ ⌊cfg.rate * T⌋ := Int.floor_nonneg.mpr (mul_nonneg hrate hT)
  have hBz : (0 : ℤ) ≤ (B : ℤ) := Int.natCast_nonneg B
  cases times with
  | nil =>
    have : ((runAllow cfg id [] st).2 : ℤ) = 0 := by simp [runAllow]
    rw [this]
    linarith
  | cons t ts =>
    have hev : evictExpiredBuckets cfg st t id = none := by
      simp only [evictExpiredBuckets, hnone]
    have hstep : allow cfg st id t =
        ((fun i => if i = id then some ⟨cfg.burst - 1, t, t⟩
          else evictExpiredBuckets cfg st t i), true) := by
      simp only [allow, hev]
    have hb0 : (0 : ℚ) ≤ cfg.burst := by
      rw [hB]; exact Nat.cast_nonneg B
    have hb1 : (1 : ℚ) ≤ cfg.burst := by
      rw [hB]; exact_mod_cast hB1
    have hthi : t ≤ t0 + T := (hbounds t (List.mem_cons_self t ts)).2
    have htlo : t0 ≤ t := (hbounds t (List.mem_cons_self t ts)).1
    have hts_first : ∀ t', ts.head? = some t' →
        (⟨cfg.burst - 1, t, t⟩ : TokenBucket).lastSeen ≤ t' ∧
        (⟨cfg.burst - 1, t, t⟩ : TokenBucket).lastRefill ≤ t' ∧
        t' - (⟨cfg.burst - 1, t, t⟩ : TokenBucket).lastSeen ≤ cfg.ttl := by
      intro t' ht'
      cases ts with
      | nil => exact absurd ht' (by simp)
      | cons u us =>
        have hu : u = t' := by simpa using ht'
        subst hu
        exact ⟨(List.chain'_cons.mp hsorted).1, (List.chain'_cons.mp hsorted).1,
          (List.chain'_cons.mp hgaps).1⟩
    have hrest : ((runAllow cfg id ts (fun i => if i = id then
        some ⟨cfg.burst - 1, t, t⟩ else evictExpiredBuckets cfg st t i)).2 : ℚ) ≤
        (cfg.burst - 1) + cfg.rate * ((t0 + T) - t) :=
      runAllow_bound cfg id (t0 + T) hrate hb0 ts _ ⟨cfg.burst - 1, t, t⟩
        (by simp) (by show (0 : ℚ) ≤ cfg.burst - 1; linarith)
        (fun u hu => (hbounds u (List.mem_cons_of_mem t hu)).2)
        hsorted.tail hgaps.tail hts_first hthi
    have hrT : cfg.rate * ((t0 + T) - t) ≤ cfg.rate * T :=
      mul_le_mul_of_nonneg_left (by linarith) hrate
    have hq : ((runAllow cfg id (t :: ts) st).2 : ℚ) ≤ (B : ℚ) + cfg.rate * T := by
      simp only [runAllow, hstep, if_true, Nat.cast_add, Nat.cast_one]
      rw [← hB]
      push_cast
      linarith
    have hz : ((runAllow cfg id (t :: ts) st).2 : ℤ) - (B : ℤ) ≤ ⌊cfg.rate * T⌋ := by
      rw [Int.le_floor]
      push_cast
      push_cast at hq
      linarith
    linarith

/-- Witness configuration: one admitted call against burst 1, rate 0. -/
theorem tokenBucket_window_bound_witness :
    ((runAllow { rate := 0, burst := 1, ttl := 0 } "a" [0] (fun _ => none)).2 : ℤ) ≤
      ((1 : ℕ) : ℤ) + ⌊({ rate := 0, burst := 1, ttl := 0 } : RLConfig).rate * 0⌋ :=
  tokenBucket_window_bound { rate := 0, burst := 1, ttl := 0 } (fun _ => none)
    "a" [0] 0 0 1 (by simp) (le_refl 1) (le_refl 0) (le_refl 0) rfl
    (by simp) (by simp) (by simp)

/-- The configuration of the eviction counterexample: refill rate 1/s,
burst 3, idle TTL 1s. -/
def rlCfgExample : RLConfig := { rate := 1, burst := 3, ttl := 1 }

/-- Six calls in a 2-second window with a 2-second idle gap in the middle. -/
def rlTimes : List ℚ := [0, 0, 0, 2, 2, 2]

/-- **C9, counterexample.**  The claim's bound burst + ⌊rate·T⌋ does not
survive idle-TTL eviction: with rate 1, burst 3, TTL 1 and calls at times
0, 0, 0, 2, 2, 2 (a window of length T = 2 for one identifier), the
2-second gap evicts the drained bucket and the re-creation grants a fresh
burst, so 6 requests are admitted although burst + ⌊rate·T⌋ = 5. -/
theorem tokenBucket_bound_violated :
    rlCfgExample.burst = ((3 : ℕ) : ℚ) ∧
    List.Chain' (fun a c => a ≤ c) rlTimes ∧
    (∀ t ∈ rlTimes, 0 ≤ t ∧ t ≤ 0 + 2) ∧
    (runAllow rlCfgExample "a" rlTimes (fun _ => none)).2 = 6 ∧
    (3 : ℤ) + ⌊rlCfgExample.rate * 2⌋ = 5 := by
  refine ⟨by norm_num [rlCfgExample], by norm_num [rlTimes], by norm_num [rlTimes], ?_, ?_⟩
  · norm_num [rlTimes, rlCfgExample, runAllow, allow, evictExpiredBuckets]
  · norm_num [rlCfgExample]

end ModeloMan
